import Mathlib

/-!
Verification of the malloc-tag memory profiler core (f18m/malloc-tag).

This file gives a shallow embedding, in Lean 4, of the data model and the
operations of the per-thread malloc tree (src/include/private/malloc_tree.h,
src/src/malloc_tree.cpp, src/src/malloc_tree_node.cpp), of the statistics
recomputation pass (MallocTreeNode::compute_bytes_totals_recursively and
MallocTreeNode::compute_node_weights_recursively) and of the engine fast path
(src/src/malloc_tag.cpp: __malloctag_track_allocation_from_glibc_override,
PrivateHelpers::EnsureTreeForThisThreadIsReady, MallocTagScope, the glibc
overrides and MallocTagEngine::write_snapshot_if_needed), and proves or
refutes the specification claims about them.

Modelling conventions:
* C++ `size_t` / `unsigned int` counters are modelled as unbounded naturals
  (`Nat`).  None of the properties proved here is about 64-bit wrap-around,
  and no realistic execution of the profiler reaches 2^64 tracked bytes, so
  the modulo-2^64 structure of the machine integers is not modelled.
* C strings are modelled as `List Char` holding the bytes strictly before the
  terminating NUL (C strings cannot contain an interior NUL).  Reading a byte
  at or past the end of the list yields the NUL byte, exactly as reading the
  terminator / the bytes strncmp never reaches.
* The node memory pool (private/fmpool.h, a LIFO free list of pre-allocated
  slots; the header itself is not part of the sources, its behaviour is
  described by the spec: slots are drawn one at a time and a drawn slot can be
  returned) is modelled by an arena `nodes : List MallocTreeNode` plus a list
  `freeSlots` of indices of the slots currently in the pool; `fmpool_get`
  pops the head of `freeSlots`, `fmpool_free` pushes the slot back on top.
* Node pointers become arena indices; the NULL parent pointer of the root
  becomes `none`.
-/

/-! ## Compile-time limits (src/include/private/malloc_tree_node.h) -/

/-- MTAG_MAX_SCOPENAME_LEN: byte capacity of the fixed-size scope-name buffer
(`std::array<char, MTAG_MAX_SCOPENAME_LEN> m_scopeName`), NUL terminator
included.  The header defines it as 20 with the comment that it must be at
least 16 bytes long due to the use in prctl(PR_GET_NAME). -/
def MTAG_MAX_SCOPENAME_LEN : Nat := 20

/-- MTAG_MAX_CHILDREN_PER_NODE: capacity of the per-node children array. -/
def MTAG_MAX_CHILDREN_PER_NODE : Nat := 16

/-- MTAG_NODE_WEIGHT_MULTIPLIER: scale used to store percentage weights as
integers with two decimal digits of accuracy. -/
def MTAG_NODE_WEIGHT_MULTIPLIER : Nat := 10000

/-- MallocTagGlibcPrimitive_e: the four kinds of per-primitive call counter
slots kept by every node (m_nAllocationsSelf[MTAG_GLIBC_PRIMITIVE_MAX]). -/
inductive MallocTagGlibcPrimitive_e where
  | MTAG_GLIBC_PRIMITIVE_MALLOC
  | MTAG_GLIBC_PRIMITIVE_REALLOC
  | MTAG_GLIBC_PRIMITIVE_CALLOC
  | MTAG_GLIBC_PRIMITIVE_FREE
deriving DecidableEq, Repr, Inhabited

/-! ## C strings -/

/-- The NUL byte that terminates every C string. -/
def nulChar : Char := Char.ofNat 0

/-- Byte `i` of the NUL-terminated C string whose payload is `s`: the payload
byte when `i` is in range, the NUL terminator otherwise.  (For equality
purposes this also covers the bytes past the terminator: `strncmp` stops at
the terminator, so for two equal-up-to-NUL strings the comparison result is
the same as if both were padded with NUL bytes.) -/
def cCharAt (s : List Char) (i : Nat) : Char := s.getD i nulChar

/-- The condition `strncmp(a, b, n) == 0` for NUL-terminated C strings with
payloads `a` and `b`: the two NUL-padded byte sequences agree on the first
`n` positions. -/
def strncmp_eq (a b : List Char) (n : Nat) : Bool :=
  (List.range n).all fun i => cCharAt a i == cCharAt b i

/-- The payload stored in the scope-name buffer by
`MallocTreeNode::set_scope_name` (src/unnamed/part_024, lines 57-61):
`strncpy(&m_scopeName[0], sitename, MTAG_MAX_SCOPENAME_LEN)` followed by the
forced NUL assignment to `m_scopeName[MTAG_MAX_SCOPENAME_LEN - 1]`.  The
buffer therefore holds the first `MTAG_MAX_SCOPENAME_LEN - 1` bytes of the
input followed by a NUL, i.e. the payload is truncated to 19 bytes; shorter
inputs are stored unchanged. -/
def truncate_scope_name (name : List Char) : List Char :=
  name.take (MTAG_MAX_SCOPENAME_LEN - 1)

/-! ## MallocTreeNode

The node class of the current sources: the field set is the one used by
src/src/malloc_tree.cpp, src/unnamed/part_014 (malloc_tree.h) and
src/unnamed/part_024 (malloc_tree_node.cpp): m_nBytesTotalAllocated,
m_nBytesSelfAllocated, m_nBytesSelfFreed, m_nAllocationsSelf[4],
m_nTimesEnteredAndExited, m_nWeightTotal, m_nWeightSelf, m_nTreeLevel,
m_scopeName, m_pChildren/m_nChildrens, m_pParent.  (The thread-id field is
omitted: no claim mentions it.)  `children` lists the arena indices of the
`m_nChildrens` valid entries of `m_pChildren`, in insertion order. -/

structure MallocTreeNode where
  bytesTotalAllocated : Nat
  bytesSelfAllocated : Nat
  bytesSelfFreed : Nat
  callsMalloc : Nat
  callsRealloc : Nat
  callsCalloc : Nat
  callsFree : Nat
  timesEnteredAndExited : Nat
  weightTotal : Nat
  weightSelf : Nat
  treeLevel : Nat
  scopeName : List Char
  children : List Nat
  parent : Option Nat
deriving DecidableEq, Repr, Inhabited

/-- MallocTreeNode::init(parent, threadID) for a non-root node: all counters
zeroed, `m_nTreeLevel = parent->m_nTreeLevel + 1`, empty name, no children,
parent back-reference set (header revision in
src/include/private/malloc_tree_node.h, lines 222-235). -/
def MallocTreeNode.initFor (parentIdx : Nat) (parentLevel : Nat) : MallocTreeNode where
  bytesTotalAllocated := 0
  bytesSelfAllocated := 0
  bytesSelfFreed := 0
  callsMalloc := 0
  callsRealloc := 0
  callsCalloc := 0
  callsFree := 0
  timesEnteredAndExited := 0
  weightTotal := 0
  weightSelf := 0
  treeLevel := parentLevel + 1
  scopeName := []
  children := []
  parent := some parentIdx

/-- MallocTreeNode::set_scope_name (src/unnamed/part_024, lines 57-61). -/
def MallocTreeNode.set_scope_name (n : MallocTreeNode) (name : List Char) : MallocTreeNode :=
  { n with scopeName := truncate_scope_name name }

/-- Bump the `m_nAllocationsSelf[type]` slot for the given primitive. -/
def MallocTreeNode.bumpCall (n : MallocTreeNode) :
    MallocTagGlibcPrimitive_e → MallocTreeNode
  | .MTAG_GLIBC_PRIMITIVE_MALLOC => { n with callsMalloc := n.callsMalloc + 1 }
  | .MTAG_GLIBC_PRIMITIVE_REALLOC => { n with callsRealloc := n.callsRealloc + 1 }
  | .MTAG_GLIBC_PRIMITIVE_CALLOC => { n with callsCalloc := n.callsCalloc + 1 }
  | .MTAG_GLIBC_PRIMITIVE_FREE => { n with callsFree := n.callsFree + 1 }

/-- MallocTreeNode::track_alloc: `m_nBytesSelfAllocated += nBytes;
m_nAllocationsSelf[type]++` (header revision in
src/include/private/malloc_tree_node.h, lines 246-250, field renamed to
m_nBytesSelfAllocated in the revision the cpp files compile against). -/
def MallocTreeNode.track_alloc (n : MallocTreeNode) (t : MallocTagGlibcPrimitive_e)
    (nBytes : Nat) : MallocTreeNode :=
  let n1 := { n with bytesSelfAllocated := n.bytesSelfAllocated + nBytes }
  n1.bumpCall t

/-- Modelled from the spec: the revision of MallocTreeNode::track_free that the
current tree sources call (it returns a Bool and adds to a dedicated freed
counter; see MallocTree::track_free_in_current_scope in src/unnamed/part_014,
lines 59-63, and the m_nBytesSelfFreed field serialised by
src/unnamed/part_024) is not under src/; per the spec it "adds to
bytes_self_freed, increments counter; reports success unconditionally". -/
def MallocTreeNode.track_free (n : MallocTreeNode) (t : MallocTagGlibcPrimitive_e)
    (nBytes : Nat) : MallocTreeNode × Bool :=
  let n1 := { n with bytesSelfFreed := n.bytesSelfFreed + nBytes }
  (n1.bumpCall t, true)

/-- Modelled from the spec: MallocTreeNode::track_node_leave, called by
MallocTree::pop_last_node (src/src/malloc_tree.cpp, line 143), is not under
src/; per the spec the leave mark "increments n_visits"
(m_nTimesEnteredAndExited, the `nTimesEnteredAndExited` field serialised by
src/unnamed/part_024). -/
def MallocTreeNode.track_node_leave (n : MallocTreeNode) : MallocTreeNode :=
  { n with timesEnteredAndExited := n.timesEnteredAndExited + 1 }

/-- MallocTreeNode::link_new_children (src/unnamed/part_024, lines 63-70):
append the new child if fewer than MTAG_MAX_CHILDREN_PER_NODE children are
linked and report true, else leave the node unchanged and report false. -/
def MallocTreeNode.link_new_children (n : MallocTreeNode) (childIdx : Nat) :
    MallocTreeNode × Bool :=
  if n.children.length < MTAG_MAX_CHILDREN_PER_NODE then
    ({ n with children := n.children ++ [childIdx] }, true)
  else
    (n, false)

/-! ## MallocTree -/

/-- The per-thread MallocTree (src/unnamed/part_014): the node arena together
with the pool free list, the cursor (m_pCurrentNode) and the counters that
the claims mention.  m_pRootNode, m_nThreadID and m_nVmSizeAtCreation play no
role in any claim and are omitted. -/
structure MallocTree where
  nodes : List MallocTreeNode
  freeSlots : List Nat
  cursor : Nat
  maxTreeLevels : Nat
  treeLevels : Nat
  treeNodesInUse : Nat
  pushNodeFailures : Nat
  freeTrackingFailed : Nat
deriving DecidableEq, Repr, Inhabited

/-- The node stored in arena slot `i` (out-of-range reads, which never happen
on the states the theorems quantify over, give the default node). -/
def nodeAt (s : MallocTree) (i : Nat) : MallocTreeNode := s.nodes.getD i default

/-- MallocTreeNode::get_child_by_name (src/unnamed/part_024, lines 72-79):
`nchars = min(strlen(name), MTAG_MAX_SCOPENAME_LEN)`, then a linear scan of
the children returning the first one whose stored name satisfies
`strncmp(child_name, name, nchars) == 0`. -/
def get_child_by_name (s : MallocTree) (i : Nat) (name : List Char) : Option Nat :=
  let nchars := min name.length MTAG_MAX_SCOPENAME_LEN
  (nodeAt s i).children.find? fun c => strncmp_eq (nodeAt s c).scopeName name nchars

/-- MallocTree::push_new_node (src/src/malloc_tree.cpp, lines 92-137):
fail at the level cap; else move the cursor to an existing child with a
matching name; else draw a pool slot (fail if the pool is empty), init it,
set its name, try to link it (on link failure return the slot to the pool and
fail); on success move the cursor to the new node and raise
m_nTreeLevels to `max` of itself and the new cursor level. -/
def push_new_node (s : MallocTree) (name : List Char) : MallocTree × Bool :=
  if (nodeAt s s.cursor).treeLevel = s.maxTreeLevels then
    ({ s with pushNodeFailures := s.pushNodeFailures + 1 }, false)
  else
    match get_child_by_name s s.cursor name with
    | some c => ({ s with cursor := c }, true)
    | none =>
      match s.freeSlots with
      | [] => ({ s with pushNodeFailures := s.pushNodeFailures + 1 }, false)
      | slot :: restFree =>
        let cur := nodeAt s s.cursor
        let fresh := (MallocTreeNode.initFor s.cursor cur.treeLevel).set_scope_name name
        let linked := cur.link_new_children slot
        if linked.2 then
          ({ s with
              nodes := (s.nodes.set slot fresh).set s.cursor linked.1
              freeSlots := restFree
              treeNodesInUse := s.treeNodesInUse + 1
              cursor := slot
              treeLevels := max s.treeLevels fresh.treeLevel }, true)
        else
          ({ s with
              nodes := s.nodes.set slot fresh
              pushNodeFailures := s.pushNodeFailures + 1 }, false)

/-- MallocTree::pop_last_node (src/src/malloc_tree.cpp, lines 139-149): mark
the cursor node as left, then move the cursor to its parent.  A NULL parent
(popping at the root) is an assertable logic error in the source; the model
leaves the cursor in place in that unreachable case. -/
def pop_last_node (s : MallocTree) : MallocTree :=
  let s1 := { s with nodes := s.nodes.set s.cursor (nodeAt s s.cursor).track_node_leave }
  match (nodeAt s s.cursor).parent with
  | some p => { s1 with cursor := p }
  | none => s1

/-- MallocTree::track_alloc_in_current_scope (src/unnamed/part_014,
lines 55-58): delegate to the cursor node. -/
def track_alloc_in_current_scope (s : MallocTree) (t : MallocTagGlibcPrimitive_e)
    (nBytes : Nat) : MallocTree :=
  { s with nodes := s.nodes.set s.cursor ((nodeAt s s.cursor).track_alloc t nBytes) }

/-- MallocTree::track_free_in_current_scope (src/unnamed/part_014,
lines 59-63): delegate to the cursor node; if the node reports failure,
increment m_nFreeTrackingFailed. -/
def track_free_in_current_scope (s : MallocTree) (t : MallocTagGlibcPrimitive_e)
    (nBytes : Nat) : MallocTree :=
  let r := (nodeAt s s.cursor).track_free t nBytes
  let s1 := { s with nodes := s.nodes.set s.cursor r.1 }
  if r.2 then s1 else { s1 with freeTrackingFailed := s1.freeTrackingFailed + 1 }

/-! ## MallocTagScope

src/src/malloc_tag.cpp, lines 450-485.  On a thread whose tree is ready and
whose hook is active (PrivateHelpers::EnsureTreeForThisThreadIsReady returns
true) the constructor records the result of push_new_node in
m_bLastPushWasSuccessful and the destructor calls pop_last_node exactly when
that recorded result was true. -/

/-- MallocTagScope constructor body on a ready tree: push, record the result. -/
def scope_construct (s : MallocTree) (name : List Char) : MallocTree × Bool :=
  push_new_node s name

/-- MallocTagScope destructor body on a ready tree: pop exactly when the
recorded push result m_bLastPushWasSuccessful is true. -/
def scope_destruct (s : MallocTree) (lastPushWasSuccessful : Bool) : MallocTree :=
  if lastPushWasSuccessful then pop_last_node s else s

/-- A sequence of strictly nested MallocTagScope objects, each enclosing the
next: construct the scope, run the (possibly empty) rest of the nest inside
it, destruct the scope. -/
def runNestedScopes (s : MallocTree) : List (List Char) → MallocTree
  | [] => s
  | n :: rest =>
    let p := scope_construct s n
    let s2 := runNestedScopes p.1 rest
    scope_destruct s2 p.2

/-! ## Engine fast path (src/src/malloc_tag.cpp)

The thread-local and global engine state that the interposed glibc overrides
read and write: the per-thread reentrancy flag g_perthread_malloc_hook_active,
the registry answer g_registry.has_main_thread_tree(), the thread's tree
g_perthread_tree (a registered tree is always ready, see the asserts in
MallocTreeRegistry::register_main_tree / register_secondary_thread_tree, so a
non-null tree is modelled as `some` tree), the tree that a call to
g_registry.register_secondary_thread_tree() would deliver (`none` models the
nullptr returned on shutdown, registry capacity or out-of-memory), and the
atomic accumulator g_bytes_allocated_before_init. -/

structure EngineState where
  hookActive : Bool
  hasMainTree : Bool
  perthreadTree : Option MallocTree
  registryNextTree : Option MallocTree
  bytesAllocatedBeforeInit : Nat
deriving DecidableEq, Repr, Inhabited

/-- PrivateHelpers::EnsureTreeForThisThreadIsReady (src/src/malloc_tag.cpp,
lines 417-444): with the hook disabled, or before init registered the main
tree, report false without touching anything; otherwise lazily register this
thread's tree (under a HookDisabler, whose save/restore leaves the flag as it
was) and report whether the thread now has a tree. -/
def EnsureTreeForThisThreadIsReady (s : EngineState) : EngineState × Bool :=
  if s.hookActive then
    if s.hasMainTree then
      match s.perthreadTree with
      | some _ => (s, true)
      | none =>
        let s1 := { s with perthreadTree := s.registryNextTree }
        (s1, s1.perthreadTree.isSome)
    else (s, false)
  else (s, false)

/-- __malloctag_track_allocation_from_glibc_override (src/src/malloc_tag.cpp,
lines 731-753): if EnsureTreeForThisThreadIsReady succeeds, charge
`malloc_usable_size(result)` to the cursor node; in every other case
(including hook disabled) fall into the `else` branch that adds the usable
size to g_bytes_allocated_before_init.  `usableSize` is the
`malloc_usable_size(newly_allocated_memory)` value. -/
def track_allocation_from_glibc_override (t : MallocTagGlibcPrimitive_e)
    (usableSize : Nat) (s : EngineState) : EngineState :=
  let p := EnsureTreeForThisThreadIsReady s
  if p.2 then
    { p.1 with
        perthreadTree := p.1.perthreadTree.map
          fun tr => track_alloc_in_current_scope tr t usableSize }
  else
    { p.1 with
        bytesAllocatedBeforeInit := p.1.bytesAllocatedBeforeInit + usableSize }

/-- The interposed malloc (src/src/malloc_tag.cpp, lines 756-773): call the
raw allocator first; on a null result return without tracking, else track
under MTAG_GLIBC_PRIMITIVE_MALLOC.  `rawUsableSize` is `none` when
__libc_malloc returned NULL and `some u` with u the malloc_usable_size of the
returned block otherwise. -/
def malloc_override (rawUsableSize : Option Nat) (s : EngineState) : EngineState :=
  match rawUsableSize with
  | none => s
  | some u =>
    track_allocation_from_glibc_override .MTAG_GLIBC_PRIMITIVE_MALLOC u s

/-- The interposed realloc (src/src/malloc_tag.cpp, lines 797-814): tracked
under MTAG_GLIBC_PRIMITIVE_REALLOC. -/
def realloc_override (rawUsableSize : Option Nat) (s : EngineState) : EngineState :=
  match rawUsableSize with
  | none => s
  | some u =>
    track_allocation_from_glibc_override .MTAG_GLIBC_PRIMITIVE_REALLOC u s

/-- The interposed calloc (src/src/malloc_tag.cpp, lines 816-833): tracked
under MTAG_GLIBC_PRIMITIVE_CALLOC. -/
def calloc_override (rawUsableSize : Option Nat) (s : EngineState) : EngineState :=
  match rawUsableSize with
  | none => s
  | some u =>
    track_allocation_from_glibc_override .MTAG_GLIBC_PRIMITIVE_CALLOC u s

/-- The interposed memalign (src/src/malloc_tag.cpp, lines 835-852): the
tracking call passes MTAG_GLIBC_PRIMITIVE_CALLOC as the primitive kind. -/
def memalign_override (rawUsableSize : Option Nat) (s : EngineState) : EngineState :=
  match rawUsableSize with
  | none => s
  | some u =>
    track_allocation_from_glibc_override .MTAG_GLIBC_PRIMITIVE_CALLOC u s

/-- The interposed valloc (src/src/malloc_tag.cpp, lines 854-871): the
tracking call passes MTAG_GLIBC_PRIMITIVE_CALLOC as the primitive kind. -/
def valloc_override (rawUsableSize : Option Nat) (s : EngineState) : EngineState :=
  match rawUsableSize with
  | none => s
  | some u =>
    track_allocation_from_glibc_override .MTAG_GLIBC_PRIMITIVE_CALLOC u s

/-- The interposed pvalloc (src/src/malloc_tag.cpp, lines 873-890): the
tracking call passes MTAG_GLIBC_PRIMITIVE_CALLOC as the primitive kind. -/
def pvalloc_override (rawUsableSize : Option Nat) (s : EngineState) : EngineState :=
  match rawUsableSize with
  | none => s
  | some u =>
    track_allocation_from_glibc_override .MTAG_GLIBC_PRIMITIVE_CALLOC u s

/-- MallocTagEngine::write_snapshot_if_needed (src/src/malloc_tag.cpp,
lines 615-631).  Inputs: the g_snapshot_interval_sec setting, the stored
g_snapshot_last_timestamp_sec, the tv_sec field that a (successful)
gettimeofday delivers, and the result that the inner write_stats() call would
report.  Output: the returned Bool and the updated
g_snapshot_last_timestamp_sec.  The source returns false when snapshotting is
disabled, and writes (updating the stored timestamp first) exactly when
`now - last > interval` in signed arithmetic; otherwise it returns false
leaving the timestamp alone. -/
def write_snapshot_if_needed (intervalSec lastSnapshotSec nowSec : Nat)
    (writeStatsResult : Bool) : Bool × Nat :=
  if intervalSec = 0 then (false, lastSnapshotSec)
  else if (nowSec : Int) - (lastSnapshotSec : Int) > (intervalSec : Int) then
    (writeStatsResult, nowSec)
  else (false, lastSnapshotSec)

/-! ## The statistics recomputation pass (src/unnamed/part_024)

MallocTreeNode::compute_bytes_totals_recursively and
MallocTreeNode::compute_node_weights_recursively walk the pointer tree rooted
at a node.  The walk is embedded on the tree structure itself: a `ScopeTree`
is a node (the fields the pass reads and writes) together with the list of
its children subtrees. -/

/-- The fields of a MallocTreeNode that the recomputation pass reads/writes. -/
structure ScopeNodeData where
  bytesSelfAllocated : Nat
  bytesTotalAllocated : Nat
  weightTotal : Nat
  weightSelf : Nat
deriving DecidableEq, Repr, Inhabited

/-- A malloc tree as traversed by the recomputation pass. -/
inductive ScopeTree where
  | node : ScopeNodeData → List ScopeTree → ScopeTree

/-- The stored m_nBytesTotalAllocated of the root node of a subtree. -/
def rootTotalAllocated : ScopeTree → Nat
  | .node d _ => d.bytesTotalAllocated

/-- The stored m_nWeightTotal of the root node of a subtree. -/
def rootWeightTotal : ScopeTree → Nat
  | .node d _ => d.weightTotal

mutual
/-- MallocTreeNode::compute_bytes_totals_recursively (src/unnamed/part_024,
lines 252-263): post-order traversal; first accumulate the return values of
all children, then store `accumulated + m_nBytesSelfAllocated` into
m_nBytesTotalAllocated and return it. -/
def compute_bytes_totals_recursively : ScopeTree → ScopeTree × Nat
  | .node d cs =>
    let p := compute_bytes_totals_list cs
    let tot := p.2 + d.bytesSelfAllocated
    (.node { d with bytesTotalAllocated := tot } p.1, tot)

/-- The `for` loop of compute_bytes_totals_recursively over the children
array, in order, accumulating the returned subtree totals. -/
def compute_bytes_totals_list : List ScopeTree → List ScopeTree × Nat
  | [] => ([], 0)
  | c :: rest =>
    let q := compute_bytes_totals_recursively c
    let r := compute_bytes_totals_list rest
    (q.1 :: r.1, q.2 + r.2)
end

mutual
/-- MallocTreeNode::compute_node_weights_recursively (src/unnamed/part_024,
lines 265-278): when rootNodeTotalBytes is zero both weights are set to zero;
otherwise m_nWeightTotal and m_nWeightSelf are set to
`MTAG_NODE_WEIGHT_MULTIPLIER * bytes / rootNodeTotalBytes` (integer
division); then recurse into every child. -/
def compute_node_weights_recursively (rootNodeTotalBytes : Nat) :
    ScopeTree → ScopeTree
  | .node d cs =>
    let d1 :=
      if rootNodeTotalBytes = 0 then
        { d with weightTotal := 0, weightSelf := 0 }
      else
        { d with
            weightTotal :=
              MTAG_NODE_WEIGHT_MULTIPLIER * d.bytesTotalAllocated / rootNodeTotalBytes
            weightSelf :=
              MTAG_NODE_WEIGHT_MULTIPLIER * d.bytesSelfAllocated / rootNodeTotalBytes }
    .node d1 (compute_node_weights_list rootNodeTotalBytes cs)

/-- The recursion of compute_node_weights_recursively over the children. -/
def compute_node_weights_list (rootNodeTotalBytes : Nat) :
    List ScopeTree → List ScopeTree
  | [] => []
  | c :: rest =>
    compute_node_weights_recursively rootNodeTotalBytes c ::
      compute_node_weights_list rootNodeTotalBytes rest
end

/-- The two recomputation steps performed by
MallocTree::collect_stats_recursively (src/src/malloc_tree.cpp,
lines 151-163) while the tree-structure lock is held: STEP1 recompute the
byte totals, STEP2 recompute the node weights against the root's (just
recomputed) total allocated bytes. -/
def collect_stats_recompute (t : ScopeTree) : ScopeTree :=
  let t1 := (compute_bytes_totals_recursively t).1
  compute_node_weights_recursively (rootTotalAllocated t1) t1

/-- The sum of the stored m_nBytesTotalAllocated over a list of subtrees. -/
def sumRootTotals : List ScopeTree → Nat
  | [] => 0
  | c :: rest => rootTotalAllocated c + sumRootTotals rest

mutual
/-- Checks, over a whole tree, the totals invariant of the spec: every node's
stored m_nBytesTotalAllocated equals its m_nBytesSelfAllocated plus the sum
of the stored totals of its children. -/
def totals_invariant : ScopeTree → Bool
  | .node d cs =>
    (d.bytesTotalAllocated == d.bytesSelfAllocated + sumRootTotals cs)
      && totals_invariant_list cs

/-- `totals_invariant` over a list of subtrees. -/
def totals_invariant_list : List ScopeTree → Bool
  | [] => true
  | c :: rest => totals_invariant c && totals_invariant_list rest
end

mutual
/-- Checks, over a whole tree, the weights formula of the spec against a
given root total: zero weights when the root total is zero, otherwise both
weights equal `MTAG_NODE_WEIGHT_MULTIPLIER * bytes / root_total`. -/
def weights_formula (rootNodeTotalBytes : Nat) : ScopeTree → Bool
  | .node d cs =>
    (if rootNodeTotalBytes = 0 then
        d.weightTotal == 0 && d.weightSelf == 0
      else
        d.weightTotal ==
            MTAG_NODE_WEIGHT_MULTIPLIER * d.bytesTotalAllocated / rootNodeTotalBytes
          && d.weightSelf ==
            MTAG_NODE_WEIGHT_MULTIPLIER * d.bytesSelfAllocated / rootNodeTotalBytes)
      && weights_formula_list rootNodeTotalBytes cs

/-- `weights_formula` over a list of subtrees. -/
def weights_formula_list (rootNodeTotalBytes : Nat) : List ScopeTree → Bool
  | [] => true
  | c :: rest =>
    weights_formula rootNodeTotalBytes c && weights_formula_list rootNodeTotalBytes rest
end

/-! ## Helper lemmas for the recomputation pass -/

mutual
/-- After compute_bytes_totals_recursively, the totals invariant holds in the
whole subtree and the returned value is the root's stored total. -/
theorem compute_totals_establishes_invariant :
    ∀ t : ScopeTree,
      totals_invariant (compute_bytes_totals_recursively t).1 = true ∧
        (compute_bytes_totals_recursively t).2 =
          rootTotalAllocated (compute_bytes_totals_recursively t).1 := by
  intro t
  cases t with
  | node d cs =>
    have hl := compute_totals_list_establishes_invariant cs
    simp only [compute_bytes_totals_recursively, totals_invariant, rootTotalAllocated,
      Bool.and_eq_true, beq_iff_eq]
    refine ⟨⟨?_, hl.1⟩, trivial⟩
    rw [← hl.2]
    exact Nat.add_comm _ _

/-- List version of `compute_totals_establishes_invariant`: the recomputed
children all satisfy the invariant and the accumulated value is the sum of
their recomputed stored totals. -/
theorem compute_totals_list_establishes_invariant :
    ∀ ts : List ScopeTree,
      totals_invariant_list (compute_bytes_totals_list ts).1 = true ∧
        (compute_bytes_totals_list ts).2 =
          sumRootTotals (compute_bytes_totals_list ts).1 := by
  intro ts
  cases ts with
  | nil => exact ⟨rfl, rfl⟩
  | cons c rest =>
    have hc := compute_totals_establishes_invariant c
    have hr := compute_totals_list_establishes_invariant rest
    simp only [compute_bytes_totals_list, totals_invariant_list, sumRootTotals,
      Bool.and_eq_true]
    exact ⟨⟨hc.1, hr.1⟩, by rw [hc.2, hr.2]⟩
end

mutual
/-- compute_node_weights_recursively establishes the weights formula at every
node of the subtree. -/
theorem compute_weights_establishes_formula :
    ∀ (r : Nat) (t : ScopeTree),
      weights_formula r (compute_node_weights_recursively r t) = true := by
  intro r t
  cases t with
  | node d cs =>
    have hl := compute_weights_list_establishes_formula r cs
    simp only [compute_node_weights_recursively, weights_formula, Bool.and_eq_true]
    refine ⟨?_, hl⟩
    by_cases hr : r = 0 <;> simp [hr]

/-- List version of `compute_weights_establishes_formula`. -/
theorem compute_weights_list_establishes_formula :
    ∀ (r : Nat) (ts : List ScopeTree),
      weights_formula_list r (compute_node_weights_list r ts) = true := by
  intro r ts
  cases ts with
  | nil => rfl
  | cons c rest =>
    simp only [compute_node_weights_list, weights_formula_list, Bool.and_eq_true]
    exact ⟨compute_weights_establishes_formula r c,
      compute_weights_list_establishes_formula r rest⟩
end

/-- compute_node_weights_recursively does not change the stored byte totals,
so the root total it is handed stays the root's stored total. -/
theorem compute_weights_preserves_rootTotal (r : Nat) (t : ScopeTree) :
    rootTotalAllocated (compute_node_weights_recursively r t) = rootTotalAllocated t := by
  cases t with
  | node d cs =>
    simp only [compute_node_weights_recursively, rootTotalAllocated]
    by_cases hr : r = 0 <;> simp [hr]

/-- The weight stored at the root by compute_node_weights_recursively when it
is handed exactly the root's own stored total. -/
theorem compute_weights_root_weight (t : ScopeTree) (h : rootTotalAllocated t ≠ 0) :
    rootWeightTotal (compute_node_weights_recursively (rootTotalAllocated t) t) =
      MTAG_NODE_WEIGHT_MULTIPLIER := by
  cases t with
  | node d cs =>
    simp only [rootTotalAllocated] at h
    simp only [compute_node_weights_recursively, rootTotalAllocated, rootWeightTotal, h,
      if_neg h]
    exact Nat.mul_div_cancel _ (Nat.pos_of_ne_zero h)

/-! ## Concrete sample states used by witnesses and counterexamples -/

/-- A root node as MallocTree::init leaves it: level 0, no parent, name set
from the thread name (here the single byte 'r'), all counters zero. -/
def sampleRootNode : MallocTreeNode where
  bytesTotalAllocated := 0
  bytesSelfAllocated := 0
  bytesSelfFreed := 0
  callsMalloc := 0
  callsRealloc := 0
  callsCalloc := 0
  callsFree := 0
  timesEnteredAndExited := 0
  weightTotal := 0
  weightSelf := 0
  treeLevel := 0
  scopeName := ['r']
  children := []
  parent := none

/-- A freshly initialised tree: one arena of three slots, slot 0 the root,
slots 1 and 2 still in the pool, cursor at the root. -/
def sampleTree : MallocTree where
  nodes := [sampleRootNode, default, default]
  freeSlots := [1, 2]
  cursor := 0
  maxTreeLevels := 3
  treeLevels := 0
  treeNodesInUse := 1
  pushNodeFailures := 0
  freeTrackingFailed := 0

/-- An engine state for a thread whose reentrancy flag is disabled (as inside
any HookDisabler window) while the engine is fully initialised: the main tree
exists and this thread has a ready tree. -/
def hookDisabledState : EngineState where
  hookActive := false
  hasMainTree := true
  perthreadTree := some sampleTree
  registryNextTree := none
  bytesAllocatedBeforeInit := 0

/-- A fully tracking-enabled engine state for a thread with a ready tree. -/
def hookEnabledState : EngineState where
  hookActive := true
  hasMainTree := true
  perthreadTree := some sampleTree
  registryNextTree := none
  bytesAllocatedBeforeInit := 0

/-- A one-node statistics tree with five self-allocated bytes. -/
def sampleScopeTree : ScopeTree :=
  .node { bytesSelfAllocated := 5, bytesTotalAllocated := 0,
          weightTotal := 0, weightSelf := 0 } []

/-! ## Claim C3 -/

/-- C3: immediately after the compute_totals pass that
MallocTree::collect_stats_recursively performs under the tree-structure lock,
every node of the tree stores bytes_total_alloc equal to its own
bytes_self_alloc plus the sum of the stored bytes_total_alloc of its
children, and the value returned by the (post-order) pass for the root is the
root's stored bytes_total_alloc. -/
theorem C3_totals_invariant_after_pass :
    ∀ t : ScopeTree,
      totals_invariant (compute_bytes_totals_recursively t).1 = true ∧
        (compute_bytes_totals_recursively t).2 =
          rootTotalAllocated (compute_bytes_totals_recursively t).1 :=
  fun t => compute_totals_establishes_invariant t

/-! ## Claim C4 -/

/-- C4: compute_node_weights_recursively stores, in every node it visits
(itself and recursively all children), weight_total and weight_self both zero
when the handed root total is zero and otherwise
`MTAG_NODE_WEIGHT_MULTIPLIER * bytes / root_total` in exact integer division;
consequently, immediately after the collect_stats recomputation on a tree
whose recomputed root total is non-zero, the root's weight_total is exactly
MTAG_NODE_WEIGHT_MULTIPLIER (= 10000). -/
theorem C4_weights_formula_and_root_weight :
    (∀ (r : Nat) (t : ScopeTree),
        weights_formula r (compute_node_weights_recursively r t) = true) ∧
      (∀ t : ScopeTree,
        rootTotalAllocated (compute_bytes_totals_recursively t).1 ≠ 0 →
          rootWeightTotal (collect_stats_recompute t) = MTAG_NODE_WEIGHT_MULTIPLIER) := by
  constructor
  · exact compute_weights_establishes_formula
  · intro t h
    unfold collect_stats_recompute
    exact compute_weights_root_weight _ h

/-- Witness for C4 at a concrete one-node tree with five self bytes: its
recomputed root total is non-zero and the recomputed root weight is 10000. -/
theorem C4_weights_witness :
    rootTotalAllocated (compute_bytes_totals_recursively sampleScopeTree).1 ≠ 0 ∧
      rootWeightTotal (collect_stats_recompute sampleScopeTree) =
        MTAG_NODE_WEIGHT_MULTIPLIER :=
  ⟨by decide, C4_weights_formula_and_root_weight.2 sampleScopeTree (by decide)⟩

/-! ## Claim C5 -/

/-- C5 is refuted by the code: with the per-thread reentrancy flag disabled,
an intercepted malloc of a block with usable size 16 leaves every node
counter and the thread-tree registration unchanged, but it adds the 16 bytes
to the g_bytes_allocated_before_init accumulator instead of leaving it at its
previous value 0: EnsureTreeForThisThreadIsReady returns false whenever the
hook is disabled, and the single `else` branch of
__malloctag_track_allocation_from_glibc_override (whose own comment says it
is the "MallocTagEngine::init() has never been invoked" case) then charges
the accumulator. -/
theorem C5_hook_disabled_charges_bytes_before_init :
    (malloc_override (some 16) hookDisabledState).bytesAllocatedBeforeInit = 16 ∧
      hookDisabledState.bytesAllocatedBeforeInit = 0 ∧
      hookDisabledState.hookActive = false ∧
      (malloc_override (some 16) hookDisabledState).perthreadTree =
        hookDisabledState.perthreadTree ∧
      (malloc_override (some 16) hookDisabledState).hasMainTree =
        hookDisabledState.hasMainTree := by
  decide

/-! ## Claim C6 -/

/-- C6 is refuted by the code: with snapshotting enabled at interval 1 s and
the previous snapshot timestamp 100, a call at second 101 — exactly
interval_sec seconds after the previous snapshot, which per the claim (and
per the API documentation of write_snapshot_if_needed) must produce a
snapshot — returns false and writes nothing, because the source requires
`now - last > interval` strictly; a call at second 102 does write.  A call
with a zero interval reports false. -/
theorem C6_snapshot_boundary_behaviour :
    write_snapshot_if_needed 1 100 101 true = (false, 100) ∧
      write_snapshot_if_needed 1 100 102 true = (true, 102) ∧
      write_snapshot_if_needed 0 100 200 true = (false, 100) := by
  decide

/-! ## Claim C9 -/

/-- C9 as stated is false: the compile-time capacity of the scope-name buffer
is MTAG_MAX_SCOPENAME_LEN = 20 bytes, not 32, and a 25-byte name is stored
truncated to 19 payload bytes (a 32-byte buffer would have kept all 25). -/
theorem C9_name_capacity_counterexample :
    MTAG_MAX_SCOPENAME_LEN ≠ 32 ∧
      (truncate_scope_name (List.replicate 25 'a')).length = 19 := by
  decide

/-- C9 amended: the scope-name buffer capacity is the compile-time constant
MTAG_MAX_SCOPENAME_LEN = 20 bytes (not 32), which is at least 16;
set_scope_name stores, for every input, a prefix of the input of length
`min (input length) (MTAG_MAX_SCOPENAME_LEN - 1)` — i.e. it truncates names
that exceed the bound and copies shorter names unchanged — and the stored
payload is always strictly shorter than the buffer, so the stored name is
always NUL-terminated inside the fixed buffer; names are never dynamically
grown. -/
theorem C9_name_truncation :
    MTAG_MAX_SCOPENAME_LEN = 20 ∧
      16 ≤ MTAG_MAX_SCOPENAME_LEN ∧
      (∀ name : List Char,
        (truncate_scope_name name).length =
            min name.length (MTAG_MAX_SCOPENAME_LEN - 1) ∧
          truncate_scope_name name <+: name ∧
          (truncate_scope_name name).length < MTAG_MAX_SCOPENAME_LEN) := by
  refine ⟨rfl, by decide, fun name => ⟨?_, ?_, ?_⟩⟩
  · simp [truncate_scope_name, List.length_take, Nat.min_comm]
  · exact List.take_prefix _ _
  · simp only [truncate_scope_name, List.length_take, MTAG_MAX_SCOPENAME_LEN]
    omega

/-! ## Arena access lemmas -/

/-- Reading a just-written arena slot. -/
theorem getD_set_eq {α : Type} (l : List α) (i : Nat) (x d : α) (h : i < l.length) :
    (l.set i x).getD i d = x := by
  simp [List.getD, List.getElem?_set_self, h]

/-- Reading an arena slot other than the written one. -/
theorem getD_set_ne {α : Type} (l : List α) (i j : Nat) (x d : α) (h : i ≠ j) :
    (l.set i x).getD j d = l.getD j d := by
  simp [List.getD, List.getElem?_set_ne, h]

/-- The cursor node of a tree. -/
def cursorNodeOf (s : MallocTree) : MallocTreeNode := nodeAt s s.cursor

/-! ## Claim C10 -/

/-- C10: on a thread with tracking fully active (hook enabled, main tree
registered, thread tree ready), every successful call to any of the
interposed memalign, valloc and pvalloc primitives produces the same tracking
update, which bumps the cursor node's nCallsTo_calloc counter by exactly one
and leaves nCallsTo_malloc and nCallsTo_realloc unchanged — the three
primitives are charged to the CALLOC per-primitive counter, so
nCallsTo_calloc does not count calls to calloc alone. -/
theorem C10_memalign_family_charges_calloc_counter (s : EngineState) (u : Nat)
    (tr : MallocTree) (h1 : s.hookActive = true) (h2 : s.hasMainTree = true)
    (h3 : s.perthreadTree = some tr) (h4 : tr.cursor < tr.nodes.length) :
    ∃ tr2 : MallocTree,
      memalign_override (some u) s = { s with perthreadTree := some tr2 } ∧
        valloc_override (some u) s = { s with perthreadTree := some tr2 } ∧
        pvalloc_override (some u) s = { s with perthreadTree := some tr2 } ∧
        (cursorNodeOf tr2).callsCalloc = (cursorNodeOf tr).callsCalloc + 1 ∧
        (cursorNodeOf tr2).callsMalloc = (cursorNodeOf tr).callsMalloc ∧
        (cursorNodeOf tr2).callsRealloc = (cursorNodeOf tr).callsRealloc := by
  refine ⟨track_alloc_in_current_scope tr .MTAG_GLIBC_PRIMITIVE_CALLOC u, ?_, ?_, ?_, ?_, ?_, ?_⟩
  case _ =>
    simp [memalign_override, track_allocation_from_glibc_override,
      EnsureTreeForThisThreadIsReady, h1, h2, h3]
  case _ =>
    simp [valloc_override, track_allocation_from_glibc_override,
      EnsureTreeForThisThreadIsReady, h1, h2, h3]
  case _ =>
    simp [pvalloc_override, track_allocation_from_glibc_override,
      EnsureTreeForThisThreadIsReady, h1, h2, h3]
  all_goals
    simp [cursorNodeOf, track_alloc_in_current_scope, nodeAt, List.getD,
      MallocTreeNode.track_alloc, MallocTreeNode.bumpCall, List.getElem?_set_self, h4]

/-- Witness for C10: concrete fully-enabled engine state, usable size 8. -/
theorem C10_memalign_family_witness :
    hookEnabledState.hookActive = true ∧
      hookEnabledState.hasMainTree = true ∧
      hookEnabledState.perthreadTree = some sampleTree ∧
      sampleTree.cursor < sampleTree.nodes.length ∧
      (∃ tr2 : MallocTree,
        memalign_override (some 8) hookEnabledState =
            { hookEnabledState with perthreadTree := some tr2 } ∧
          valloc_override (some 8) hookEnabledState =
            { hookEnabledState with perthreadTree := some tr2 } ∧
          pvalloc_override (some 8) hookEnabledState =
            { hookEnabledState with perthreadTree := some tr2 } ∧
          (cursorNodeOf tr2).callsCalloc = (cursorNodeOf sampleTree).callsCalloc + 1 ∧
          (cursorNodeOf tr2).callsMalloc = (cursorNodeOf sampleTree).callsMalloc ∧
          (cursorNodeOf tr2).callsRealloc = (cursorNodeOf sampleTree).callsRealloc) :=
  ⟨rfl, rfl, rfl, by decide,
    C10_memalign_family_charges_calloc_counter hookEnabledState 8 sampleTree rfl rfl rfl
      (by decide)⟩

/-! ## Claim C7: counter monotonicity -/

/-- Pointwise order on the byte/call counter fields that the fast path
updates: bytes_self_alloc, bytes_self_freed, the four per-primitive call
counters and n_visits. -/
def counters_le (a b : MallocTreeNode) : Prop :=
  a.bytesSelfAllocated ≤ b.bytesSelfAllocated ∧
    a.bytesSelfFreed ≤ b.bytesSelfFreed ∧
    a.callsMalloc ≤ b.callsMalloc ∧
    a.callsRealloc ≤ b.callsRealloc ∧
    a.callsCalloc ≤ b.callsCalloc ∧
    a.callsFree ≤ b.callsFree ∧
    a.timesEnteredAndExited ≤ b.timesEnteredAndExited

/-- Every node is counter-below itself. -/
theorem counters_le_refl (a : MallocTreeNode) : counters_le a a := by
  simp [counters_le]

/-- Linking a child never touches the counters. -/
theorem counters_le_link (n : MallocTreeNode) (c : Nat) :
    counters_le n (n.link_new_children c).1 := by
  unfold MallocTreeNode.link_new_children
  split <;> simp [counters_le]

/-- track_alloc only adds. -/
theorem counters_le_track_alloc (n : MallocTreeNode) (t : MallocTagGlibcPrimitive_e)
    (b : Nat) : counters_le n (n.track_alloc t b) := by
  cases t <;>
    simp [counters_le, MallocTreeNode.track_alloc, MallocTreeNode.bumpCall]

/-- track_free only adds. -/
theorem counters_le_track_free (n : MallocTreeNode) (t : MallocTagGlibcPrimitive_e)
    (b : Nat) : counters_le n (n.track_free t b).1 := by
  cases t <;>
    simp [counters_le, MallocTreeNode.track_free, MallocTreeNode.bumpCall]

/-- track_node_leave only increments n_visits. -/
theorem counters_le_track_node_leave (n : MallocTreeNode) :
    counters_le n n.track_node_leave := by
  simp [counters_le, MallocTreeNode.track_node_leave]

/-- The node arena after pop_last_node: the cursor node got its leave mark,
whichever branch the parent match took. -/
theorem pop_last_node_nodes (s : MallocTree) :
    (pop_last_node s).nodes = s.nodes.set s.cursor (nodeAt s s.cursor).track_node_leave := by
  unfold pop_last_node
  split <;> rfl

/-- Reading slot `i` after writing the cursor slot: the written node when `i`
is the cursor, the old node otherwise. -/
theorem nodeAt_after_set_cursor (s : MallocTree) (x : MallocTreeNode) (i : Nat)
    (hi : i < s.nodes.length) :
    (s.nodes.set s.cursor x).getD i default =
      if i = s.cursor then x else nodeAt s i := by
  rcases eq_or_ne i s.cursor with hc | hc
  · rw [if_pos hc, hc, getD_set_eq _ _ _ _ (hc ▸ hi)]
  · rw [if_neg hc, getD_set_ne _ _ _ _ _ (fun h => hc h.symm)]
    rfl

/-- Counter monotonicity of push_new_node on every node that is in use (not
in the pool free list) before the call. -/
theorem push_preserves_counters (s : MallocTree) (name : List Char) (i : Nat)
    (hi : i < s.nodes.length) (hfree : i ∉ s.freeSlots) :
    counters_le (nodeAt s i) (nodeAt (push_new_node s name).1 i) := by
  unfold push_new_node
  split
  · exact counters_le_refl _
  · split
    · exact counters_le_refl _
    · split
      · exact counters_le_refl _
      · rename_i slot restFree heq
        have hslotmem : slot ∈ s.freeSlots := by rw [heq]; exact List.mem_cons_self _ _
        have hislot : i ≠ slot := fun h => hfree (h ▸ hslotmem)
        dsimp only
        split
        · simp only [nodeAt]
          rcases eq_or_ne i s.cursor with hc | hc
          · rw [hc, getD_set_eq]
            · exact counters_le_link _ _
            · simpa using hc ▸ hi
          · rw [getD_set_ne _ _ _ _ _ (fun h => hc h.symm),
              getD_set_ne _ _ _ _ _ (fun h => hislot h.symm)]
            exact counters_le_refl _
        · simp only [nodeAt]
          rw [getD_set_ne _ _ _ _ _ (fun h => hislot h.symm)]
          exact counters_le_refl _

/-- push_new_node never decreases m_nPushNodeFailures. -/
theorem push_failures_monotone (s : MallocTree) (name : List Char) :
    s.pushNodeFailures ≤ (push_new_node s name).1.pushNodeFailures := by
  unfold push_new_node
  split
  · simp
  · split
    · simp
    · split
      · simp
      · dsimp only
        split <;> simp

/-- C7: no operation of the fast path decreases any byte counter, call
counter or visit counter of a node in use, nor the tree failure counters:
push_new_node, pop_last_node, track_alloc_in_current_scope and
track_free_in_current_scope all leave every such counter of every in-use node
(any node outside the pool free list) greater than or equal to its previous
value; push_new_node never decreases m_nPushNodeFailures and
track_free_in_current_scope never decreases m_nFreeTrackingFailed. -/
theorem C7_fast_path_counters_monotone (s : MallocTree) (name : List Char)
    (t : MallocTagGlibcPrimitive_e) (nBytes : Nat) (i : Nat)
    (hi : i < s.nodes.length) (hfree : i ∉ s.freeSlots) :
    counters_le (nodeAt s i) (nodeAt (push_new_node s name).1 i) ∧
      counters_le (nodeAt s i) (nodeAt (pop_last_node s) i) ∧
      counters_le (nodeAt s i) (nodeAt (track_alloc_in_current_scope s t nBytes) i) ∧
      counters_le (nodeAt s i) (nodeAt (track_free_in_current_scope s t nBytes) i) ∧
      s.pushNodeFailures ≤ (push_new_node s name).1.pushNodeFailures ∧
      s.freeTrackingFailed ≤ (track_free_in_current_scope s t nBytes).freeTrackingFailed := by
  refine ⟨push_preserves_counters s name i hi hfree, ?_, ?_, ?_,
    push_failures_monotone s name, ?_⟩
  · have hn : nodeAt (pop_last_node s) i =
        if i = s.cursor then (nodeAt s s.cursor).track_node_leave else nodeAt s i := by
      show (pop_last_node s).nodes.getD i default = _
      rw [pop_last_node_nodes]
      exact nodeAt_after_set_cursor s _ i hi
    rw [hn]
    rcases eq_or_ne i s.cursor with hc | hc
    · rw [if_pos hc, hc]
      exact counters_le_track_node_leave _
    · rw [if_neg hc]
      exact counters_le_refl _
  · have hn : nodeAt (track_alloc_in_current_scope s t nBytes) i =
        if i = s.cursor then (nodeAt s s.cursor).track_alloc t nBytes
        else nodeAt s i := by
      show (track_alloc_in_current_scope s t nBytes).nodes.getD i default = _
      unfold track_alloc_in_current_scope
      exact nodeAt_after_set_cursor s _ i hi
    rw [hn]
    rcases eq_or_ne i s.cursor with hc | hc
    · rw [if_pos hc, hc]
      exact counters_le_track_alloc _ _ _
    · rw [if_neg hc]
      exact counters_le_refl _
  · have hn : nodeAt (track_free_in_current_scope s t nBytes) i =
        if i = s.cursor then ((nodeAt s s.cursor).track_free t nBytes).1
        else nodeAt s i := by
      show (track_free_in_current_scope s t nBytes).nodes.getD i default = _
      unfold track_free_in_current_scope
      simp only [MallocTreeNode.track_free, if_true]
      exact nodeAt_after_set_cursor s _ i hi
    rw [hn]
    rcases eq_or_ne i s.cursor with hc | hc
    · rw [if_pos hc, hc]
      exact counters_le_track_free _ _ _
    · rw [if_neg hc]
      exact counters_le_refl _
  · unfold track_free_in_current_scope
    simp [MallocTreeNode.track_free]

/-- Witness for C7 at the concrete sample tree, node 0, a push of 'a' and a
FREE-kind tracking of 4 bytes. -/
theorem C7_counters_monotone_witness :
    (0 < sampleTree.nodes.length ∧ 0 ∉ sampleTree.freeSlots) ∧
      (counters_le (nodeAt sampleTree 0)
          (nodeAt (push_new_node sampleTree ['a']).1 0) ∧
        counters_le (nodeAt sampleTree 0) (nodeAt (pop_last_node sampleTree) 0) ∧
        counters_le (nodeAt sampleTree 0)
          (nodeAt (track_alloc_in_current_scope sampleTree
            .MTAG_GLIBC_PRIMITIVE_FREE 4) 0) ∧
        counters_le (nodeAt sampleTree 0)
          (nodeAt (track_free_in_current_scope sampleTree
            .MTAG_GLIBC_PRIMITIVE_FREE 4) 0) ∧
        sampleTree.pushNodeFailures ≤
          (push_new_node sampleTree ['a']).1.pushNodeFailures ∧
        sampleTree.freeTrackingFailed ≤
          (track_free_in_current_scope sampleTree
            .MTAG_GLIBC_PRIMITIVE_FREE 4).freeTrackingFailed) :=
  ⟨⟨by decide, by decide⟩,
    C7_fast_path_counters_monotone sampleTree ['a'] .MTAG_GLIBC_PRIMITIVE_FREE 4 0
      (by decide) (by decide)⟩

/-! ## Structural invariant of a MallocTree state

The properties that MallocTree::init establishes and that every operation
preserves: the cursor points to an in-use arena slot; pool free-list entries
are in-range and pairwise distinct; the children of every in-use node are
in-use, carry the parent back-reference required by the data model and sit
one level below their parent; parents of in-use nodes are in use. -/

/-- Arena slot `i` is in use: in range and not in the pool free list. -/
@[reducible] def Live (s : MallocTree) (i : Nat) : Prop :=
  i < s.nodes.length ∧ i ∉ s.freeSlots

instance instDecidableForallEqSome {α : Type} (o : Option α) (P : α → Prop)
    [DecidablePred P] : Decidable (∀ x, o = some x → P x) :=
  match o with
  | none => isTrue (by intro x h; cases h)
  | some a =>
    if h : P a then isTrue (by intro x hx; cases hx; exact h)
    else isFalse (fun hall => h (hall a rfl))

/-- The structural invariant. -/
@[reducible] def TreeInv (s : MallocTree) : Prop :=
  Live s s.cursor ∧
    (∀ i ∈ s.freeSlots, i < s.nodes.length) ∧
    s.freeSlots.Nodup ∧
    (∀ i, i < s.nodes.length → i ∉ s.freeSlots →
      (∀ c ∈ (nodeAt s i).children,
        Live s c ∧ (nodeAt s c).parent = some i ∧
          (nodeAt s c).treeLevel = (nodeAt s i).treeLevel + 1)) ∧
    (∀ i, i < s.nodes.length → i ∉ s.freeSlots →
      (∀ p, (nodeAt s i).parent = some p → Live s p))

/-! Structure-preservation simp lemmas for the node updates. -/

@[simp] theorem track_node_leave_children (n : MallocTreeNode) :
    n.track_node_leave.children = n.children := rfl

@[simp] theorem track_node_leave_parent (n : MallocTreeNode) :
    n.track_node_leave.parent = n.parent := rfl

@[simp] theorem track_node_leave_treeLevel (n : MallocTreeNode) :
    n.track_node_leave.treeLevel = n.treeLevel := rfl

@[simp] theorem track_node_leave_scopeName (n : MallocTreeNode) :
    n.track_node_leave.scopeName = n.scopeName := rfl

/-- link_new_children succeeds exactly below the sibling cap, appending. -/
theorem link_new_children_of_lt (n : MallocTreeNode) (c : Nat)
    (h : n.children.length < MTAG_MAX_CHILDREN_PER_NODE) :
    n.link_new_children c = ({ n with children := n.children ++ [c] }, true) := by
  unfold MallocTreeNode.link_new_children
  rw [if_pos h]

/-- link_new_children fails at the sibling cap, leaving the node unchanged. -/
theorem link_new_children_of_ge (n : MallocTreeNode) (c : Nat)
    (h : ¬ n.children.length < MTAG_MAX_CHILDREN_PER_NODE) :
    n.link_new_children c = (n, false) := by
  unfold MallocTreeNode.link_new_children
  rw [if_neg h]

/-- Exhaustive description of MallocTree::push_new_node, one disjunct per
path through the source: level-cap failure, existing-child hit, pool
exhaustion, sibling-cap failure (the drawn slot is returned to the pool and
only its arena content keeps the initialised node), and successful creation
of a new child. -/
theorem push_cases (s : MallocTree) (name : List Char) :
    ((nodeAt s s.cursor).treeLevel = s.maxTreeLevels ∧
        push_new_node s name =
          ({ s with pushNodeFailures := s.pushNodeFailures + 1 }, false)) ∨
      ((nodeAt s s.cursor).treeLevel ≠ s.maxTreeLevels ∧
        ∃ c, get_child_by_name s s.cursor name = some c ∧
          push_new_node s name = ({ s with cursor := c }, true)) ∨
      ((nodeAt s s.cursor).treeLevel ≠ s.maxTreeLevels ∧
        get_child_by_name s s.cursor name = none ∧ s.freeSlots = [] ∧
        push_new_node s name =
          ({ s with pushNodeFailures := s.pushNodeFailures + 1 }, false)) ∨
      ((nodeAt s s.cursor).treeLevel ≠ s.maxTreeLevels ∧
        get_child_by_name s s.cursor name = none ∧
        ∃ slot restFree, s.freeSlots = slot :: restFree ∧
          ¬ (nodeAt s s.cursor).children.length < MTAG_MAX_CHILDREN_PER_NODE ∧
          push_new_node s name =
            ({ s with
                nodes := s.nodes.set slot
                  ((MallocTreeNode.initFor s.cursor
                    (nodeAt s s.cursor).treeLevel).set_scope_name name)
                pushNodeFailures := s.pushNodeFailures + 1 }, false)) ∨
      ((nodeAt s s.cursor).treeLevel ≠ s.maxTreeLevels ∧
        get_child_by_name s s.cursor name = none ∧
        ∃ slot restFree, s.freeSlots = slot :: restFree ∧
          (nodeAt s s.cursor).children.length < MTAG_MAX_CHILDREN_PER_NODE ∧
          push_new_node s name =
            ({ s with
                nodes := (s.nodes.set slot
                    ((MallocTreeNode.initFor s.cursor
                      (nodeAt s s.cursor).treeLevel).set_scope_name name)).set s.cursor
                  { nodeAt s s.cursor with
                      children := (nodeAt s s.cursor).children ++ [slot] }
                freeSlots := restFree
                treeNodesInUse := s.treeNodesInUse + 1
                cursor := slot
                treeLevels := max s.treeLevels
                  ((nodeAt s s.cursor).treeLevel + 1) }, true)) := by
  unfold push_new_node
  split
  · rename_i hlvl
    exact Or.inl ⟨hlvl, rfl⟩
  · rename_i hlvl
    split
    · rename_i c heq
      exact Or.inr (Or.inl ⟨hlvl, c, heq, rfl⟩)
    · rename_i heq
      split
      · rename_i hempty
        exact Or.inr (Or.inr (Or.inl ⟨hlvl, heq, hempty, rfl⟩))
      · rename_i slot restFree hcons
        dsimp only
        by_cases hcap :
            (nodeAt s s.cursor).children.length < MTAG_MAX_CHILDREN_PER_NODE
        · rw [link_new_children_of_lt _ _ hcap]
          exact Or.inr (Or.inr (Or.inr (Or.inr
            ⟨hlvl, heq, slot, restFree, hcons, hcap, rfl⟩)))
        · rw [link_new_children_of_ge _ _ hcap]
          exact Or.inr (Or.inr (Or.inr (Or.inl
            ⟨hlvl, heq, slot, restFree, hcons, hcap, rfl⟩)))

/-- A child delivered by get_child_by_name is one of the children. -/
theorem get_child_by_name_mem (s : MallocTree) (i : Nat) (name : List Char) (c : Nat)
    (h : get_child_by_name s i name = some c) : c ∈ (nodeAt s i).children := by
  unfold get_child_by_name at h
  exact List.mem_of_find?_eq_some h

/-! ## Claim C1 -/

/-- The per-call contract of MallocTree::push_new_node, in the order the
source evaluates the conditions: the level-cap check first; then the
existing-child lookup; only when no child matches does the pool draw happen
(failing on exhaustion), and only then the sibling-cap link (failing at the
cap).  Every failure increments m_nPushNodeFailures by exactly one and leaves
the cursor, the pool free list, the net nodes-in-use count and every in-use
arena slot unchanged; both success paths move the cursor one tree level
deeper than before. -/
def push_contract_spec (s : MallocTree) (name : List Char) : Prop :=
  ((nodeAt s s.cursor).treeLevel = s.maxTreeLevels →
      push_new_node s name =
        ({ s with pushNodeFailures := s.pushNodeFailures + 1 }, false)) ∧
    ((nodeAt s s.cursor).treeLevel ≠ s.maxTreeLevels →
      (∀ c, get_child_by_name s s.cursor name = some c →
        push_new_node s name = ({ s with cursor := c }, true) ∧
          (nodeAt s c).treeLevel = (nodeAt s s.cursor).treeLevel + 1) ∧
      (get_child_by_name s s.cursor name = none →
        (s.freeSlots = [] →
          push_new_node s name =
            ({ s with pushNodeFailures := s.pushNodeFailures + 1 }, false)) ∧
        (∀ slot restFree, s.freeSlots = slot :: restFree →
          (¬ (nodeAt s s.cursor).children.length < MTAG_MAX_CHILDREN_PER_NODE →
            (push_new_node s name).2 = false ∧
              (push_new_node s name).1.pushNodeFailures = s.pushNodeFailures + 1 ∧
              (push_new_node s name).1.cursor = s.cursor ∧
              (push_new_node s name).1.freeSlots = s.freeSlots ∧
              (push_new_node s name).1.treeNodesInUse = s.treeNodesInUse ∧
              (∀ i, Live s i → nodeAt (push_new_node s name).1 i = nodeAt s i)) ∧
          ((nodeAt s s.cursor).children.length < MTAG_MAX_CHILDREN_PER_NODE →
            (push_new_node s name).2 = true ∧
              (push_new_node s name).1.cursor = slot ∧
              (nodeAt (push_new_node s name).1 slot).treeLevel =
                (nodeAt s s.cursor).treeLevel + 1 ∧
              (push_new_node s name).1.pushNodeFailures = s.pushNodeFailures ∧
              (push_new_node s name).1.treeNodesInUse = s.treeNodesInUse + 1))))

/-- C1 (amended): push_new_node satisfies its per-call contract on every
structurally valid tree state.  Compared with the claim as frozen, the pool
and sibling-cap failure conditions apply only on the path where no existing
child already bears a matching name: a push whose name matches an existing
child succeeds without drawing from the pool even when the pool is empty
(see the counterexample). -/
theorem C1_push_contract (s : MallocTree) (name : List Char) (hinv : TreeInv s) :
    push_contract_spec s name := by
  obtain ⟨hcur, hfreelt, hnodup, hchild, hpar⟩ := hinv
  unfold push_contract_spec
  rcases push_cases s name with
    ⟨hlvl, heqp⟩ | ⟨hlvl, c, hfind, heqp⟩ | ⟨hlvl, hnone, hempty, heqp⟩ |
      ⟨hlvl, hnone, slot, restFree, hcons, hcap, heqp⟩ |
      ⟨hlvl, hnone, slot, restFree, hcons, hcap, heqp⟩
  · exact ⟨fun _ => heqp, fun hl => absurd hlvl hl⟩
  · refine ⟨fun hl => absurd hl hlvl, fun _ => ⟨?_, ?_⟩⟩
    · intro c' hc'
      rw [hfind] at hc'
      injection hc' with hcc
      subst hcc
      refine ⟨heqp, ?_⟩
      exact (hchild s.cursor hcur.1 hcur.2 c (get_child_by_name_mem s s.cursor name c hfind)).2.2
    · intro hn
      rw [hfind] at hn
      cases hn
  · refine ⟨fun hl => absurd hl hlvl, fun _ => ⟨?_, ?_⟩⟩
    · intro c' hc'
      rw [hnone] at hc'
      cases hc'
    · intro _
      refine ⟨fun _ => heqp, ?_⟩
      intro slot restFree hcons
      rw [hempty] at hcons
      cases hcons
  · refine ⟨fun hl => absurd hl hlvl, fun _ => ⟨?_, ?_⟩⟩
    · intro c' hc'
      rw [hnone] at hc'
      cases hc'
    · intro _
      refine ⟨fun hemp => ?_, ?_⟩
      · rw [hemp] at hcons
        cases hcons
      · intro slot' restFree' hcons'
        refine ⟨fun _ => ?_, fun hlt => absurd hlt hcap⟩
        rw [heqp]
        have hslotmem : slot ∈ s.freeSlots := by
          rw [hcons]; exact List.mem_cons_self _ _
        refine ⟨rfl, rfl, rfl, rfl, rfl, ?_⟩
        intro i hlive
        have hislot : i ≠ slot := fun h => hlive.2 (h ▸ hslotmem)
        show (s.nodes.set slot _).getD i default = _
        rw [getD_set_ne _ _ _ _ _ (fun h => hislot h.symm)]
        rfl
  · refine ⟨fun hl => absurd hl hlvl, fun _ => ⟨?_, ?_⟩⟩
    · intro c' hc'
      rw [hnone] at hc'
      cases hc'
    · intro _
      refine ⟨fun hemp => ?_, ?_⟩
      · rw [hemp] at hcons
        cases hcons
      · intro slot' restFree' hcons'
        have h2 := hcons.symm.trans hcons'
        injection h2 with hs1 hs2
        rw [← hs1]
        refine ⟨fun hge => absurd hcap hge, fun _ => ?_⟩
        rw [heqp]
        have hslotmem : slot ∈ s.freeSlots := by
          rw [hcons]; exact List.mem_cons_self _ _
        have hslotcur : slot ≠ s.cursor := fun h => hcur.2 (h ▸ hslotmem)
        have hslotlen : slot < s.nodes.length := hfreelt slot hslotmem
        refine ⟨rfl, rfl, ?_, rfl, rfl⟩
        show (((s.nodes.set slot _).set s.cursor _).getD slot default).treeLevel = _
        rw [getD_set_ne _ _ _ _ _ (fun h => hslotcur h.symm), getD_set_eq]
        · rfl
        · simpa using hslotlen

/-- A tree whose pool is exhausted while the root already has a child named
'x': slot 0 is the root (child list [1]), slot 1 the child, the free list is
empty. -/
def poolExhaustedTree : MallocTree where
  nodes := [{ sampleRootNode with children := [1] },
    { MallocTreeNode.initFor 0 0 with scopeName := ['x'] }]
  freeSlots := []
  cursor := 0
  maxTreeLevels := 3
  treeLevels := 1
  treeNodesInUse := 2
  pushNodeFailures := 0
  freeTrackingFailed := 0

/-- C1 as stated is false: with the node pool completely exhausted (no free
slot), a push whose name matches an existing child of the cursor returns
"pushed" and does not increment push_failures, while the claim requires
every push with an empty pool to return "not pushed" with push_failures
incremented by one. -/
theorem C1_pool_exhausted_dedup_counterexample :
    poolExhaustedTree.freeSlots = [] ∧
      (push_new_node poolExhaustedTree ['x']).2 = true ∧
      (push_new_node poolExhaustedTree ['x']).1.pushNodeFailures =
        poolExhaustedTree.pushNodeFailures := by
  decide

/-- Witness for C1 (amended) at the concrete sample tree with name 'a'. -/
theorem C1_push_contract_witness :
    TreeInv sampleTree ∧ push_contract_spec sampleTree ['a'] :=
  ⟨⟨by decide, by decide, by decide, by decide, by decide⟩,
    C1_push_contract sampleTree ['a']
      ⟨by decide, by decide, by decide, by decide, by decide⟩⟩

/-! ## Claim C8 -/

/-- strncmp of a string against itself succeeds at any length. -/
theorem strncmp_eq_refl (a : List Char) (n : Nat) : strncmp_eq a a n = true := by
  unfold strncmp_eq
  simp

/-- Sibling stored names are pairwise distinct under every in-use parent. -/
def sibling_names_nodup (s : MallocTree) : Prop :=
  ∀ i, i < s.nodes.length → i ∉ s.freeSlots →
    ((nodeAt s i).children.map fun c => (nodeAt s c).scopeName).Nodup

/-- On a structurally valid state, no in-use node lists itself as a child
(a child sits one level below its parent). -/
theorem child_ne_parent (s : MallocTree) (i c : Nat) (hinv : TreeInv s)
    (hi : i < s.nodes.length) (hfree : i ∉ s.freeSlots)
    (hc : c ∈ (nodeAt s i).children) : c ≠ i := by
  obtain ⟨-, -, -, hchild, -⟩ := hinv
  intro hci
  have hlvl := (hchild i hi hfree c hc).2.2
  rw [hci] at hlvl
  omega

/-- The behaviour of push_new_node with respect to the bounded-length child
lookup, and the sibling-name distinctness it maintains.  Part (a): when the
lookup finds a child — the first child, in insertion order, whose stored
name agrees with the pushed name on the first
`min (length name) MTAG_MAX_SCOPENAME_LEN` bytes of the NUL-padded strings —
the cursor moves to that child and nothing is drawn from the pool.  Part
(b): when no child matches (and a slot and sibling capacity are available) a
new child is appended to the cursor's child list carrying the name truncated
to MTAG_MAX_SCOPENAME_LEN - 1 bytes.  Part (c): provided every pushed name
is shorter than MTAG_MAX_SCOPENAME_LEN, sibling stored names remain pairwise
distinct. -/
def bounded_dedup_spec (s : MallocTree) (name : List Char) : Prop :=
  ((nodeAt s s.cursor).treeLevel ≠ s.maxTreeLevels →
    ∀ c, get_child_by_name s s.cursor name = some c →
      push_new_node s name = ({ s with cursor := c }, true) ∧
        c ∈ (nodeAt s s.cursor).children ∧
        strncmp_eq (nodeAt s c).scopeName name
          (min name.length MTAG_MAX_SCOPENAME_LEN) = true) ∧
    ((nodeAt s s.cursor).treeLevel ≠ s.maxTreeLevels →
      get_child_by_name s s.cursor name = none →
      ∀ slot restFree, s.freeSlots = slot :: restFree →
        (nodeAt s s.cursor).children.length < MTAG_MAX_CHILDREN_PER_NODE →
        (nodeAt (push_new_node s name).1 (push_new_node s name).1.cursor).scopeName =
            truncate_scope_name name ∧
          (nodeAt (push_new_node s name).1 s.cursor).children =
            (nodeAt s s.cursor).children ++ [slot]) ∧
    (sibling_names_nodup s → name.length < MTAG_MAX_SCOPENAME_LEN →
      sibling_names_nodup (push_new_node s name).1)


/-- A name below the capacity bound is stored without truncation. -/
theorem truncate_of_short (name : List Char) (h : name.length < MTAG_MAX_SCOPENAME_LEN) :
    truncate_scope_name name = name := by
  unfold truncate_scope_name
  apply List.take_of_length_le
  simp only [MTAG_MAX_SCOPENAME_LEN] at h ⊢
  omega

/-- Reading any slot of a doubly-updated arena (the success path of
push_new_node writes the fresh node at `slot` and the extended child list at
the cursor). -/
theorem getD_double_set (nodes : List MallocTreeNode) (slot cur : Nat)
    (f c : MallocTreeNode) (i : Nat)
    (hslot : slot < nodes.length) (hcur : cur < nodes.length) :
    ((nodes.set slot f).set cur c).getD i default =
      if i = cur then c else if i = slot then f else nodes.getD i default := by
  rcases eq_or_ne i cur with h1 | h1
  · rw [if_pos h1, h1, getD_set_eq _ _ _ _ (by simpa using hcur)]
  · rw [if_neg h1, getD_set_ne _ _ _ _ _ (fun h => h1 h.symm)]
    rcases eq_or_ne i slot with h2 | h2
    · rw [if_pos h2, h2, getD_set_eq _ _ _ _ hslot]
    · rw [if_neg h2, getD_set_ne _ _ _ _ _ (fun h => h2 h.symm)]

/-- Reading any slot of a singly-updated arena (the sibling-cap failure path
of push_new_node only rewrites the drawn-and-returned slot). -/
theorem getD_single_set (nodes : List MallocTreeNode) (slot : Nat)
    (f : MallocTreeNode) (i : Nat) (hslot : slot < nodes.length) :
    (nodes.set slot f).getD i default =
      if i = slot then f else nodes.getD i default := by
  rcases eq_or_ne i slot with h1 | h1
  · rw [if_pos h1, h1, getD_set_eq _ _ _ _ hslot]
  · rw [if_neg h1, getD_set_ne _ _ _ _ _ (fun h => h1 h.symm)]

/-- A map stays duplicate-free when its function agrees pointwise with one
whose image is duplicate-free. -/
theorem nodup_map_congr {α β : Type} (l : List α) (f g : α → β)
    (h : ∀ a ∈ l, f a = g a) (hg : (l.map g).Nodup) : (l.map f).Nodup := by
  rw [List.map_congr_left h]
  exact hg

/-- C8 (amended): push_new_node deduplicates through get_child_by_name's
bounded byte comparison — moving the cursor to the first matching child
without drawing from the pool, appending a new child bearing the truncated
name only when no child matches — and, as long as every pushed name is
shorter than MTAG_MAX_SCOPENAME_LEN, sibling stored names remain pairwise
distinct.  Compared to the claim as frozen, a "match" is agreement on the
first `min (length name) MTAG_MAX_SCOPENAME_LEN` NUL-padded bytes rather
than name equality after truncation: a pushed name that is a proper prefix
of an existing child's stored name moves the cursor onto that child (see the
counterexample), so the cursor's node need not be named `name`. -/
theorem C8_bounded_lookup_dedup (s : MallocTree) (name : List Char)
    (hinv : TreeInv s) : bounded_dedup_spec s name := by
  obtain ⟨hcur, hfreelt, hnodup, hchild, hpar⟩ := hinv
  refine ⟨?_, ?_, ?_⟩
  · intro hlvl c hfind
    rcases push_cases s name with
      ⟨hl, -⟩ | ⟨-, c', hfind', heqp⟩ | ⟨-, hnone, -, -⟩ |
        ⟨-, hnone, -⟩ | ⟨-, hnone, -⟩
    · exact absurd hl hlvl
    · rw [hfind] at hfind'
      injection hfind' with hcc
      subst hcc
      refine ⟨heqp, get_child_by_name_mem s s.cursor name c hfind, ?_⟩
      simp only [get_child_by_name] at hfind
      simpa using List.find?_some hfind
    · rw [hnone] at hfind
      cases hfind
    · rw [hnone] at hfind
      cases hfind
    · rw [hnone] at hfind
      cases hfind
  · intro hlvl hnone slot restFree hcons hcap
    rcases push_cases s name with
      ⟨hl, -⟩ | ⟨-, c', hfind', -⟩ | ⟨-, -, hempty, -⟩ |
        ⟨-, -, slot2, rest2, hcons2, hcap2, -⟩ |
        ⟨-, -, slot2, rest2, hcons2, hcap2, heqp⟩
    · exact absurd hl hlvl
    · rw [hnone] at hfind'
      cases hfind'
    · rw [hempty] at hcons
      cases hcons
    · exact absurd hcap hcap2
    · have h2 := hcons.symm.trans hcons2
      injection h2 with hs1 hs2
      have hslotmem : slot ∈ s.freeSlots := by
        rw [hcons]; exact List.mem_cons_self _ _
      have hslotcur : slot ≠ s.cursor := fun h => hcur.2 (h ▸ hslotmem)
      have hslotlen : slot < s.nodes.length := hfreelt slot hslotmem
      have hst := congrArg Prod.fst heqp
      rw [hst, ← hs1]
      dsimp only
      constructor
      · simp only [nodeAt]
        rw [getD_double_set _ _ _ _ _ _ hslotlen hcur.1, if_neg hslotcur, if_pos rfl]
        rfl
      · simp only [nodeAt]
        rw [getD_double_set _ _ _ _ _ _ hslotlen hcur.1, if_pos rfl]
  · intro hnod hlen
    rcases push_cases s name with
      ⟨-, heqp⟩ | ⟨-, c', -, heqp⟩ | ⟨-, -, -, heqp⟩ |
        ⟨-, hnone, slot, restFree, hcons, -, heqp⟩ |
        ⟨-, hnone, slot, restFree, hcons, hcap, heqp⟩
    · rw [congrArg Prod.fst heqp]
      exact hnod
    · rw [congrArg Prod.fst heqp]
      exact hnod
    · rw [congrArg Prod.fst heqp]
      exact hnod
    · have hslotmem : slot ∈ s.freeSlots := by
        rw [hcons]; exact List.mem_cons_self _ _
      have hslotlen : slot < s.nodes.length := hfreelt slot hslotmem
      rw [congrArg Prod.fst heqp]
      intro i hi hfree
      have hi' : i < s.nodes.length := by simpa using hi
      have hislot : i ≠ slot := fun h => hfree (h ▸ hslotmem)
      simp only [nodeAt]
      rw [getD_single_set _ _ _ _ hslotlen, if_neg hislot]
      refine nodup_map_congr _ _ (fun c => (nodeAt s c).scopeName) ?_
        (hnod i hi' hfree)
      intro c hc
      have hclive := (hchild i hi' hfree c hc).1
      have hcslot : c ≠ slot := fun h => hclive.2 (h ▸ hslotmem)
      rw [getD_single_set _ _ _ _ hslotlen, if_neg hcslot]
      rfl
    · have hslotmem : slot ∈ s.freeSlots := by
        rw [hcons]; exact List.mem_cons_self _ _
      have hslotcur : slot ≠ s.cursor := fun h => hcur.2 (h ▸ hslotmem)
      have hslotlen : slot < s.nodes.length := hfreelt slot hslotmem
      rw [congrArg Prod.fst heqp]
      intro i hi hfree
      have hi' : i < s.nodes.length := by simpa using hi
      have hifree : i ≠ slot → i ∉ s.freeSlots := by
        intro hns hmem
        rw [hcons] at hmem
        rcases List.mem_cons.mp hmem with h | h
        · exact hns h
        · exact hfree h
      simp only [nodeAt]
      by_cases his : i = slot
      · subst his
        rw [getD_double_set _ _ _ _ _ _ hslotlen hcur.1, if_neg hslotcur, if_pos rfl]
        simp [MallocTreeNode.set_scope_name, MallocTreeNode.initFor]
      · have hilive : i ∉ s.freeSlots := hifree his
        by_cases hic : i = s.cursor
        · rw [getD_double_set _ _ _ _ _ _ hslotlen hcur.1, if_pos hic]
          dsimp only
          rw [List.map_append]
          rw [List.nodup_append]
          refine ⟨?_, ?_, ?_⟩
          · refine nodup_map_congr _ _ (fun c => (nodeAt s c).scopeName) ?_
              (hnod s.cursor hcur.1 hcur.2)
            intro c hc
            have hclive := (hchild s.cursor hcur.1 hcur.2 c hc).1
            have hcslot : c ≠ slot := fun h => hclive.2 (h ▸ hslotmem)
            have hccur : c ≠ s.cursor :=
              child_ne_parent s s.cursor c ⟨hcur, hfreelt, hnodup, hchild, hpar⟩
                hcur.1 hcur.2 hc
            rw [getD_double_set _ _ _ _ _ _ hslotlen hcur.1, if_neg hccur,
              if_neg hcslot]
            rfl
          · simp
          · intro x hx hxn
            simp only [List.map_cons, List.map_nil, List.mem_singleton] at hxn
            rw [getD_double_set _ _ _ _ _ _ hslotlen hcur.1, if_neg hslotcur,
              if_pos rfl] at hxn
            rcases List.mem_map.mp hx with ⟨c, hcmem, hcname⟩
            have hclive := (hchild s.cursor hcur.1 hcur.2 c hcmem).1
            have hcslot : c ≠ slot := fun h => hclive.2 (h ▸ hslotmem)
            have hccur : c ≠ s.cursor :=
              child_ne_parent s s.cursor c ⟨hcur, hfreelt, hnodup, hchild, hpar⟩
                hcur.1 hcur.2 hcmem
            rw [getD_double_set _ _ _ _ _ _ hslotlen hcur.1, if_neg hccur,
              if_neg hcslot] at hcname
            have hnomatch := List.find?_eq_none.mp (by
              simpa only [get_child_by_name] using hnone) c hcmem
            apply hnomatch
            have hxname : x = name := by
              rw [hxn]
              show truncate_scope_name name = name
              exact truncate_of_short name hlen
            have hfin : (nodeAt s c).scopeName = name := hcname.trans hxname
            rw [hfin]
            exact strncmp_eq_refl name _
        · rw [getD_double_set _ _ _ _ _ _ hslotlen hcur.1, if_neg hic, if_neg his]
          refine nodup_map_congr _ _ (fun c => (nodeAt s c).scopeName) ?_
            (hnod i hi' hilive)
          intro c hc
          have hclive := (hchild i hi' hilive c hc).1
          have hcslot : c ≠ slot := fun h => hclive.2 (h ▸ hslotmem)
          by_cases hccur : c = s.cursor
          · rw [getD_double_set _ _ _ _ _ _ hslotlen hcur.1, if_pos hccur, hccur]
            rfl
          · rw [getD_double_set _ _ _ _ _ _ hslotlen hcur.1, if_neg hccur,
              if_neg hcslot]
            rfl

/-- A tree whose root has one child named "Hello" and a slot left in the
pool. -/
def prefixMatchTree : MallocTree where
  nodes := [{ sampleRootNode with children := [1] },
    { MallocTreeNode.initFor 0 0 with scopeName := ['H', 'e', 'l', 'l', 'o'] },
    default]
  freeSlots := [2]
  cursor := 0
  maxTreeLevels := 5
  treeLevels := 1
  treeNodesInUse := 2
  pushNodeFailures := 0
  freeTrackingFailed := 0

/-- C8 as stated is false: pushing "Hel" onto a cursor whose only child is
named "Hello" moves the cursor onto that child and creates no node, although
no child's scope name equals "Hel" (which is well under the truncation
bound, so truncation does not change it) — get_child_by_name's
`strncmp(child_name, name, min(strlen(name), MTAG_MAX_SCOPENAME_LEN))`
comparison accepts any child of which the pushed name is a prefix, so after
the push the cursor's node is named "Hello", not "Hel". -/
theorem C8_prefix_match_counterexample :
    (push_new_node prefixMatchTree ['H', 'e', 'l']).2 = true ∧
      (push_new_node prefixMatchTree ['H', 'e', 'l']).1.cursor = 1 ∧
      (nodeAt (push_new_node prefixMatchTree ['H', 'e', 'l']).1 1).scopeName =
        ['H', 'e', 'l', 'l', 'o'] ∧
      truncate_scope_name ['H', 'e', 'l'] = ['H', 'e', 'l'] ∧
      (['H', 'e', 'l', 'l', 'o'] : List Char) ≠ ['H', 'e', 'l'] ∧
      (push_new_node prefixMatchTree ['H', 'e', 'l']).1.treeNodesInUse =
        prefixMatchTree.treeNodesInUse := by
  decide

/-- Witness for C8 (amended) at the concrete sample tree with name 'a'. -/
theorem C8_bounded_lookup_dedup_witness :
    TreeInv sampleTree ∧ bounded_dedup_spec sampleTree ['a'] :=
  ⟨⟨by decide, by decide, by decide, by decide, by decide⟩,
    C8_bounded_lookup_dedup sampleTree ['a']
      ⟨by decide, by decide, by decide, by decide, by decide⟩⟩

/-! ## Claim C2: scope push/pop pairing -/

/-- pop_last_node leaves the pool free list alone. -/
theorem pop_last_node_freeSlots (s : MallocTree) :
    (pop_last_node s).freeSlots = s.freeSlots := by
  unfold pop_last_node
  split <;> rfl

/-- pop_last_node keeps the arena size. -/
theorem pop_last_node_length (s : MallocTree) :
    (pop_last_node s).nodes.length = s.nodes.length := by
  rw [pop_last_node_nodes]
  simp

/-- The cursor after pop_last_node is the popped node's parent. -/
theorem pop_last_node_cursor (s : MallocTree) (p : Nat)
    (h : (nodeAt s s.cursor).parent = some p) : (pop_last_node s).cursor = p := by
  unfold pop_last_node
  rw [h]

/-- A push that reports failure does not move the cursor. -/
theorem push_fail_cursor (s : MallocTree) (name : List Char)
    (hfail : (push_new_node s name).2 = false) :
    (push_new_node s name).1.cursor = s.cursor := by
  rcases push_cases s name with
    ⟨-, heqp⟩ | ⟨-, c', -, heqp⟩ | ⟨-, -, -, heqp⟩ |
      ⟨-, -, slot, restFree, -, -, heqp⟩ | ⟨-, -, slot, restFree, -, -, heqp⟩
  · rw [congrArg Prod.fst heqp]
  · rw [heqp] at hfail
    cases hfail
  · rw [congrArg Prod.fst heqp]
  · rw [congrArg Prod.fst heqp]
  · rw [heqp] at hfail
    cases hfail

/-- A push that reports success moves the cursor onto an in-use node whose
parent back-reference is the previous cursor. -/
theorem push_success_cursor_parent (s : MallocTree) (name : List Char)
    (hinv : TreeInv s) (hok : (push_new_node s name).2 = true) :
    Live (push_new_node s name).1 (push_new_node s name).1.cursor ∧
      (nodeAt (push_new_node s name).1 (push_new_node s name).1.cursor).parent =
        some s.cursor := by
  obtain ⟨hcur, hfreelt, hnodup, hchild, hpar⟩ := hinv
  rcases push_cases s name with
    ⟨-, heqp⟩ | ⟨-, c', hfind, heqp⟩ | ⟨-, -, -, heqp⟩ |
      ⟨-, -, slot, restFree, -, -, heqp⟩ |
      ⟨-, -, slot, restFree, hcons, hcap, heqp⟩
  · rw [heqp] at hok
    cases hok
  · have hmem := get_child_by_name_mem s s.cursor name c' hfind
    have hc := hchild s.cursor hcur.1 hcur.2 c' hmem
    rw [congrArg Prod.fst heqp]
    exact ⟨hc.1, hc.2.1⟩
  · rw [heqp] at hok
    cases hok
  · rw [heqp] at hok
    cases hok
  · have hslotmem : slot ∈ s.freeSlots := by
      rw [hcons]; exact List.mem_cons_self _ _
    have hslotcur : slot ≠ s.cursor := fun h => hcur.2 (h ▸ hslotmem)
    have hslotlen : slot < s.nodes.length := hfreelt slot hslotmem
    have hslotfree : slot ∉ restFree := by
      rw [hcons] at hnodup
      exact (List.nodup_cons.mp hnodup).1
    rw [congrArg Prod.fst heqp]
    dsimp only
    constructor
    · exact ⟨by simpa using hslotlen, hslotfree⟩
    · simp only [nodeAt]
      rw [getD_double_set _ _ _ _ _ _ hslotlen hcur.1, if_neg hslotcur, if_pos rfl]
      rfl

/-- push_new_node keeps every previously in-use slot in use and does not
touch its parent back-reference. -/
theorem push_stable (s : MallocTree) (name : List Char) (i : Nat)
    (hlive : Live s i) :
    Live (push_new_node s name).1 i ∧
      (nodeAt (push_new_node s name).1 i).parent = (nodeAt s i).parent := by
  rcases push_cases s name with
    ⟨-, heqp⟩ | ⟨-, c', -, heqp⟩ | ⟨-, -, -, heqp⟩ |
      ⟨-, -, slot, restFree, hcons, -, heqp⟩ |
      ⟨-, -, slot, restFree, hcons, -, heqp⟩
  · rw [congrArg Prod.fst heqp]
    exact ⟨hlive, rfl⟩
  · rw [congrArg Prod.fst heqp]
    exact ⟨hlive, rfl⟩
  · rw [congrArg Prod.fst heqp]
    exact ⟨hlive, rfl⟩
  · have hslotmem : slot ∈ s.freeSlots := by
      rw [hcons]; exact List.mem_cons_self _ _
    have hislot : i ≠ slot := fun h => hlive.2 (h ▸ hslotmem)
    rw [congrArg Prod.fst heqp]
    refine ⟨⟨by simpa using hlive.1, hlive.2⟩, ?_⟩
    simp only [nodeAt]
    rw [getD_set_ne _ _ _ _ _ (fun h => hislot h.symm)]
  · have hslotmem : slot ∈ s.freeSlots := by
      rw [hcons]; exact List.mem_cons_self _ _
    have hislot : i ≠ slot := fun h => hlive.2 (h ▸ hslotmem)
    have hirest : i ∉ restFree := fun h =>
      hlive.2 (hcons ▸ List.mem_cons_of_mem _ h)
    rw [congrArg Prod.fst heqp]
    refine ⟨⟨by simpa using hlive.1, hirest⟩, ?_⟩
    simp only [nodeAt]
    rcases eq_or_ne i s.cursor with hc | hc
    · rw [hc, getD_set_eq _ _ _ _ (by simpa using hc ▸ hlive.1)]
    · rw [getD_set_ne _ _ _ _ _ (fun h => hc h.symm),
        getD_set_ne _ _ _ _ _ (fun h => hislot h.symm)]

/-- pop_last_node keeps every in-use slot in use and does not touch parent
back-references. -/
theorem pop_stable (s : MallocTree) (i : Nat) (hlive : Live s i) :
    Live (pop_last_node s) i ∧
      (nodeAt (pop_last_node s) i).parent = (nodeAt s i).parent := by
  refine ⟨⟨by rw [pop_last_node_length]; exact hlive.1,
    by rw [pop_last_node_freeSlots]; exact hlive.2⟩, ?_⟩
  have hn : nodeAt (pop_last_node s) i =
      if i = s.cursor then (nodeAt s s.cursor).track_node_leave else nodeAt s i := by
    show (pop_last_node s).nodes.getD i default = _
    rw [pop_last_node_nodes]
    exact nodeAt_after_set_cursor s _ i hlive.1
  rw [hn]
  rcases eq_or_ne i s.cursor with hc | hc
  · rw [if_pos hc, hc]
    rfl
  · rw [if_neg hc]

/-- pop_last_node preserves the structural invariant. -/
theorem TreeInv_pop (s : MallocTree) (hinv : TreeInv s) : TreeInv (pop_last_node s) := by
  obtain ⟨hcur, hfreelt, hnodup, hchild, hpar⟩ := hinv
  have hread : ∀ j, j < s.nodes.length → nodeAt (pop_last_node s) j =
      if j = s.cursor then (nodeAt s s.cursor).track_node_leave else nodeAt s j := by
    intro j hj
    show (pop_last_node s).nodes.getD j default = _
    rw [pop_last_node_nodes]
    exact nodeAt_after_set_cursor s _ j hj
  have hsame : ∀ j, j < s.nodes.length →
      (nodeAt (pop_last_node s) j).children = (nodeAt s j).children ∧
        (nodeAt (pop_last_node s) j).parent = (nodeAt s j).parent ∧
        (nodeAt (pop_last_node s) j).treeLevel = (nodeAt s j).treeLevel := by
    intro j hj
    rw [hread j hj]
    rcases eq_or_ne j s.cursor with hc | hc
    · rw [if_pos hc, hc]
      exact ⟨rfl, rfl, rfl⟩
    · rw [if_neg hc]
      exact ⟨rfl, rfl, rfl⟩
  refine ⟨?_, ?_, ?_, ?_, ?_⟩
  · unfold pop_last_node
    split
    · rename_i p hp
      have hplive := hpar s.cursor hcur.1 hcur.2 p hp
      exact ⟨by simpa using hplive.1, hplive.2⟩
    · exact ⟨by simpa using hcur.1, hcur.2⟩
  · intro j hj
    rw [pop_last_node_length]
    exact hfreelt j (by rwa [pop_last_node_freeSlots] at hj)
  · rw [pop_last_node_freeSlots]
    exact hnodup
  · intro j hj hj2 c hc
    rw [pop_last_node_length] at hj
    rw [pop_last_node_freeSlots] at hj2
    rw [(hsame j hj).1] at hc
    have h0 := hchild j hj hj2 c hc
    have hclen := h0.1.1
    refine ⟨⟨by rw [pop_last_node_length]; exact h0.1.1,
        by rw [pop_last_node_freeSlots]; exact h0.1.2⟩, ?_, ?_⟩
    · rw [(hsame c hclen).2.1]
      exact h0.2.1
    · rw [(hsame c hclen).2.2, (hsame j hj).2.2]
      exact h0.2.2
  · intro j hj hj2 p hp
    rw [pop_last_node_length] at hj
    rw [pop_last_node_freeSlots] at hj2
    rw [(hsame j hj).2.1] at hp
    have h0 := hpar j hj hj2 p hp
    exact ⟨by rw [pop_last_node_length]; exact h0.1,
      by rw [pop_last_node_freeSlots]; exact h0.2⟩

/-- push_new_node preserves the structural invariant. -/
theorem TreeInv_push (s : MallocTree) (name : List Char) (hinv : TreeInv s) :
    TreeInv (push_new_node s name).1 := by
  obtain ⟨hcur, hfreelt, hnodup, hchild, hpar⟩ := hinv
  rcases push_cases s name with
    ⟨-, heqp⟩ | ⟨-, c', hfind, heqp⟩ | ⟨-, -, -, heqp⟩ |
      ⟨-, -, slot, restFree, hcons, -, heqp⟩ |
      ⟨-, -, slot, restFree, hcons, -, heqp⟩
  · rw [congrArg Prod.fst heqp]
    exact ⟨hcur, hfreelt, hnodup, hchild, hpar⟩
  · rw [congrArg Prod.fst heqp]
    have hc := hchild s.cursor hcur.1 hcur.2 c'
      (get_child_by_name_mem s s.cursor name c' hfind)
    exact ⟨hc.1, hfreelt, hnodup, hchild, hpar⟩
  · rw [congrArg Prod.fst heqp]
    exact ⟨hcur, hfreelt, hnodup, hchild, hpar⟩
  · have hslotmem : slot ∈ s.freeSlots := by
      rw [hcons]; exact List.mem_cons_self _ _
    rw [congrArg Prod.fst heqp]
    have hread : ∀ j, j ∉ s.freeSlots →
        nodeAt { s with
            nodes := s.nodes.set slot
              ((MallocTreeNode.initFor s.cursor
                (nodeAt s s.cursor).treeLevel).set_scope_name name)
            pushNodeFailures := s.pushNodeFailures + 1 } j = nodeAt s j := by
      intro j hj
      have hjslot : j ≠ slot := fun h => hj (h ▸ hslotmem)
      show (s.nodes.set slot _).getD j default = _
      rw [getD_set_ne _ _ _ _ _ (fun h => hjslot h.symm)]
      rfl
    refine ⟨⟨by simpa using hcur.1, hcur.2⟩, ?_, hnodup, ?_, ?_⟩
    · intro j hj
      simpa using hfreelt j hj
    · intro j hj hj2 c hc
      have hj' : j < s.nodes.length := by simpa using hj
      rw [hread j hj2] at hc
      have h0 := hchild j hj' hj2 c hc
      refine ⟨⟨by simpa using h0.1.1, h0.1.2⟩, ?_, ?_⟩
      · rw [hread c h0.1.2]
        exact h0.2.1
      · rw [hread c h0.1.2, hread j hj2]
        exact h0.2.2
    · intro j hj hj2 p hp
      have hj' : j < s.nodes.length := by simpa using hj
      rw [hread j hj2] at hp
      have h0 := hpar j hj' hj2 p hp
      exact ⟨by simpa using h0.1, h0.2⟩
  · have hslotmem : slot ∈ s.freeSlots := by
      rw [hcons]; exact List.mem_cons_self _ _
    have hslotcur : slot ≠ s.cursor := fun h => hcur.2 (h ▸ hslotmem)
    have hslotlen : slot < s.nodes.length := hfreelt slot hslotmem
    have hslotnotrest : slot ∉ restFree := by
      rw [hcons] at hnodup
      exact (List.nodup_cons.mp hnodup).1
    have hnotrest : ∀ p, p ∉ s.freeSlots → p ∉ restFree := fun p hp h =>
      hp (hcons ▸ List.mem_cons_of_mem _ h)
    rw [congrArg Prod.fst heqp]
    dsimp only
    constructor
    · exact ⟨by simpa using hslotlen, hslotnotrest⟩
    refine ⟨?_, ?_, ?_, ?_⟩
    · intro j hj
      have : j ∈ s.freeSlots := by
        rw [hcons]; exact List.mem_cons_of_mem _ hj
      simpa using hfreelt j this
    · rw [hcons] at hnodup
      exact (List.nodup_cons.mp hnodup).2
    · intro j hj hj2 c hc
      have hj' : j < s.nodes.length := by simpa using hj
      simp only [nodeAt] at hc ⊢
      rw [getD_double_set _ _ _ _ _ _ hslotlen hcur.1] at hc
      by_cases hjc : j = s.cursor
      · rw [if_pos hjc] at hc
        dsimp only at hc
        rcases List.mem_append.mp hc with hcold | hcnew
        · have h0 := hchild s.cursor hcur.1 hcur.2 c hcold
          have hcslot : c ≠ slot := fun h => h0.1.2 (h ▸ hslotmem)
          have hccur : c ≠ s.cursor :=
            child_ne_parent s s.cursor c ⟨hcur, hfreelt, hnodup, hchild, hpar⟩
              hcur.1 hcur.2 hcold
          refine ⟨⟨by simpa using h0.1.1, hnotrest c h0.1.2⟩, ?_, ?_⟩
          · rw [getD_double_set _ _ _ _ _ _ hslotlen hcur.1, if_neg hccur,
              if_neg hcslot, hjc]
            exact h0.2.1
          · rw [getD_double_set _ _ _ _ _ _ hslotlen hcur.1, if_neg hccur,
              if_neg hcslot,
              getD_double_set _ _ _ _ _ _ hslotlen hcur.1, if_pos hjc]
            exact h0.2.2
        · rw [List.mem_singleton] at hcnew
          subst hcnew
          refine ⟨⟨by simpa using hslotlen, hslotnotrest⟩, ?_, ?_⟩
          · rw [getD_double_set _ _ _ _ _ _ hslotlen hcur.1, if_neg hslotcur,
              if_pos rfl, hjc]
            rfl
          · rw [getD_double_set _ _ _ _ _ _ hslotlen hcur.1, if_neg hslotcur,
              if_pos rfl,
              getD_double_set _ _ _ _ _ _ hslotlen hcur.1, if_pos hjc]
            rfl
      · have hjslot : j ≠ slot := by
          intro h
          rw [if_neg hjc, if_pos h] at hc
          simp [MallocTreeNode.set_scope_name, MallocTreeNode.initFor] at hc
        rw [if_neg hjc, if_neg hjslot] at hc
        have hjfree : j ∉ s.freeSlots := by
          intro hmem
          rcases List.mem_cons.mp (hcons ▸ hmem) with h | h
          · exact hjslot h
          · exact hj2 h
        have h0 := hchild j hj' hjfree c hc
        have hcslot : c ≠ slot := fun h => h0.1.2 (h ▸ hslotmem)
        refine ⟨⟨by simpa using h0.1.1, hnotrest c h0.1.2⟩, ?_, ?_⟩
        · by_cases hccur : c = s.cursor
          · rw [getD_double_set _ _ _ _ _ _ hslotlen hcur.1, if_pos hccur]
            dsimp only
            rw [hccur] at h0
            exact h0.2.1
          · rw [getD_double_set _ _ _ _ _ _ hslotlen hcur.1, if_neg hccur,
              if_neg hcslot]
            exact h0.2.1
        · by_cases hccur : c = s.cursor
          · rw [getD_double_set _ _ _ _ _ _ hslotlen hcur.1, if_pos hccur,
              getD_double_set _ _ _ _ _ _ hslotlen hcur.1, if_neg hjc,
              if_neg hjslot]
            dsimp only
            rw [hccur] at h0
            exact h0.2.2
          · rw [getD_double_set _ _ _ _ _ _ hslotlen hcur.1, if_neg hccur,
              if_neg hcslot,
              getD_double_set _ _ _ _ _ _ hslotlen hcur.1, if_neg hjc,
              if_neg hjslot]
            exact h0.2.2
    · intro j hj hj2 p hp
      have hj' : j < s.nodes.length := by simpa using hj
      simp only [nodeAt] at hp
      rw [getD_double_set _ _ _ _ _ _ hslotlen hcur.1] at hp
      by_cases hjc : j = s.cursor
      · rw [if_pos hjc] at hp
        dsimp only at hp
        have h0 := hpar s.cursor hcur.1 hcur.2 p (by rw [← hjc] at hp ⊢; exact hp)
        exact ⟨by simpa using h0.1, hnotrest p h0.2⟩
      · by_cases hjslot : j = slot
        · rw [if_neg hjc, if_pos hjslot] at hp
          have hpcur : p = s.cursor := by
            have : some s.cursor = some p := by
              rw [← hp]
              rfl
            injection this with h
            exact h.symm
          rw [hpcur]
          exact ⟨by simpa using hcur.1, hnotrest s.cursor hcur.2⟩
        · rw [if_neg hjc, if_neg hjslot] at hp
          have hjfree : j ∉ s.freeSlots := by
            intro hmem
            rcases List.mem_cons.mp (hcons ▸ hmem) with h | h
            · exact hjslot h
            · exact hj2 h
          have h0 := hpar j hj' hjfree p hp
          exact ⟨by simpa using h0.1, hnotrest p h0.2⟩

/-- Running a nest of MallocTagScope objects on a structurally valid tree
preserves the invariant, keeps every previously in-use node in use with its
parent back-reference intact, and returns the cursor to where it started:
each destructor pops exactly when its constructor's push succeeded, and a
successful push parks the cursor on a node whose parent is the previous
cursor. -/
theorem runNestedScopes_restores_cursor (ns : List (List Char)) :
    ∀ s : MallocTree, TreeInv s →
      TreeInv (runNestedScopes s ns) ∧
        (∀ i, Live s i → Live (runNestedScopes s ns) i ∧
          (nodeAt (runNestedScopes s ns) i).parent = (nodeAt s i).parent) ∧
        (runNestedScopes s ns).cursor = s.cursor := by
  induction ns with
  | nil => exact fun s hinv => ⟨hinv, fun i hl => ⟨hl, rfl⟩, rfl⟩
  | cons n rest ih =>
    intro s hinv
    have hinv1 : TreeInv (push_new_node s n).1 := TreeInv_push s n hinv
    obtain ⟨hinv2, hstab2, hcur2⟩ := ih (push_new_node s n).1 hinv1
    have hrun : runNestedScopes s (n :: rest) =
        scope_destruct (runNestedScopes (push_new_node s n).1 rest)
          (push_new_node s n).2 := rfl
    rcases hok : (push_new_node s n).2 with - | -
    · -- failed push: the destructor skips the pop
      have hdes : scope_destruct (runNestedScopes (push_new_node s n).1 rest)
          (push_new_node s n).2 =
          runNestedScopes (push_new_node s n).1 rest := by
        rw [hok]
        rfl
      rw [hrun, hdes]
      refine ⟨hinv2, ?_, ?_⟩
      · intro i hl
        have h1 := push_stable s n i hl
        have h2 := hstab2 i h1.1
        exact ⟨h2.1, h2.2.trans h1.2⟩
      · rw [hcur2, push_fail_cursor s n hok]
    · -- successful push: the destructor pops back to the old cursor
      have hdes : scope_destruct (runNestedScopes (push_new_node s n).1 rest)
          (push_new_node s n).2 =
          pop_last_node (runNestedScopes (push_new_node s n).1 rest) := by
        rw [hok]
        rfl
      rw [hrun, hdes]
      obtain ⟨hclive, hcpar⟩ := push_success_cursor_parent s n hinv hok
      have hstabc := hstab2 (push_new_node s n).1.cursor hclive
      refine ⟨TreeInv_pop _ hinv2, ?_, ?_⟩
      · intro i hl
        have h1 := push_stable s n i hl
        have h2 := hstab2 i h1.1
        have h3 := pop_stable (runNestedScopes (push_new_node s n).1 rest) i h2.1
        exact ⟨h3.1, (h3.2.trans h2.2).trans h1.2⟩
      · apply pop_last_node_cursor
        rw [hcur2]
        rw [hstabc.2]
        exact hcpar

/-- C2: on a thread whose tree is ready and whose hook is active at scope
construction and destruction, a MallocTagScope destructor invokes
pop_last_node exactly when the push performed at construction returned
"pushed" (m_bLastPushWasSuccessful), and consequently, for every sequence of
strictly nested scopes over a structurally valid tree, after each scope's
destruction the tree cursor is again the node that was current when that
scope was constructed — even when some pushes failed. -/
theorem C2_scope_pop_iff_push_and_cursor_restored (s : MallocTree)
    (ns : List (List Char)) (hinv : TreeInv s) :
    (∀ (s2 : MallocTree) (pushedOk : Bool),
        (pushedOk = true → scope_destruct s2 pushedOk = pop_last_node s2) ∧
          (pushedOk = false → scope_destruct s2 pushedOk = s2)) ∧
      (runNestedScopes s ns).cursor = s.cursor := by
  constructor
  · intro s2 pushedOk
    constructor
    · intro h
      rw [h]
      rfl
    · intro h
      rw [h]
      rfl
  · exact (runNestedScopes_restores_cursor ns s hinv).2.2

/-- Witness for C2 at the sample tree with the nested scopes 'a' inside it
'b', and a deep nest 'a','b','c','d' that overruns the pool and the level
cap so that some pushes fail. -/
theorem C2_scope_nesting_witness :
    TreeInv sampleTree ∧
      ((∀ (s2 : MallocTree) (pushedOk : Bool),
          (pushedOk = true → scope_destruct s2 pushedOk = pop_last_node s2) ∧
            (pushedOk = false → scope_destruct s2 pushedOk = s2)) ∧
        (runNestedScopes sampleTree [['a'], ['b'], ['c'], ['d']]).cursor =
          sampleTree.cursor) :=
  ⟨⟨by decide, by decide, by decide, by decide, by decide⟩,
    C2_scope_pop_iff_push_and_cursor_restored sampleTree [['a'], ['b'], ['c'], ['d']]
      ⟨by decide, by decide, by decide, by decide, by decide⟩⟩
